import Mathlib

/-!
Verification of the scrape-and-normalize pipeline of `streamlit_kpi_app.py`.

The Python source is shallowly embedded: strings are Lean `String`s processed
as `List Char`, Python `int` is `Int`/`Nat`, Python floats produced by the
rate column are modelled exactly as `Rat` (pandas `round(1)` is modelled as
round-half-to-even on rationals), fallible code returns `Except`/`Option`.
HTML/HTTP inputs are abstracted at the BeautifulSoup boundary: a fetched page
is represented by the outcome of the soup queries the code performs
(no `table.table-striped` element / no `tbody` / the list of `td.delim`
cell texts of each `tr`).
-/

namespace SRKpi

/-! ## Python string primitives -/

/-- Whitespace set of Python `str.strip()` (ASCII subset). -/
def isPySpace (c : Char) : Bool :=
  c = ' ' || c = '\t' || c = '\n' || c = '\r' || c = '\x0b' || c = '\x0c'

/-- Strip leading and trailing whitespace from a character list. -/
def stripChars (l : List Char) : List Char :=
  ((l.dropWhile isPySpace).reverse.dropWhile isPySpace).reverse

/-- Python `s.strip()`. -/
def pstrip (s : String) : String :=
  String.mk (stripChars s.data)

/-- Numeric value of a decimal digit character. -/
def charVal (c : Char) : Nat := c.toNat - 48

/-- Value of a decimal digit string, as computed by Python `int(...)`
on a string of digits (arbitrary precision). -/
def digitsToNat (l : List Char) : Nat :=
  l.foldl (fun a c => 10 * a + charVal c) 0

/-! ## Duration Parser: `parse_live_duration` (src lines 78-93)

Python: `re.search(r'\((\d+)m(\d+)s\)', duration_str)`.  A position matches
iff it starts with `'('`, followed by a nonempty maximal digit run, `'m'`,
a nonempty maximal digit run, `'s'`, `')'` (the greedy `\d+` cannot
backtrack into a successful match because the following literal is not a
digit).  `re.search` returns the leftmost such match. -/

/-- Try to match `\((\d+)m(\d+)s\)` at the head of the list, returning
(minutes, seconds) digit values. -/
def matchDur (l : List Char) : Option (Nat × Nat) :=
  match l with
  | '(' :: rest =>
    let d1 := rest.takeWhile Char.isDigit
    let r1 := rest.dropWhile Char.isDigit
    if d1.isEmpty then none else
      match r1 with
      | 'm' :: r2 =>
        let d2 := r2.takeWhile Char.isDigit
        let r3 := r2.dropWhile Char.isDigit
        if d2.isEmpty then none else
          match r3 with
          | 's' :: ')' :: _ => some (digitsToNat d1, digitsToNat d2)
          | _ => none
      | _ => none
  | _ => none

/-- Leftmost match of `\((\d+)m(\d+)s\)` (Python `re.search`). -/
def searchDur : List Char → Option (Nat × Nat)
  | [] => none
  | c :: rest =>
    match matchDur (c :: rest) with
    | some r => some r
    | none => searchDur rest

/-- `parse_live_duration` (src lines 78-93): extract broadcast minutes from a
`(<minutes>m<seconds>s)` token, rounding up when seconds >= 30; 0 when no
token is present. -/
def parse_live_duration (s : String) : Nat :=
  match searchDur s.data with
  | none => 0
  | some (m, sec) => if 30 ≤ sec then m + 1 else m

/-! ## Timestamp extraction (src lines 158-163)

Python: `re.search(r'(\d{4}-\d{2}-\d{2} \d{2}:\d{2}:\d{2})', ...)` followed by
`datetime.strptime(..., '%Y-%m-%d %H:%M:%S')` (which raises `ValueError`
on a shape-matching but calendar-invalid timestamp) and
`strftime('%Y/%m/%d %H:%M:%S')`. -/

/-- Character-class shape of the timestamp regex: 19 positions. -/
def tsShape : List (Char → Bool) :=
  [Char.isDigit, Char.isDigit, Char.isDigit, Char.isDigit, (· = '-'),
   Char.isDigit, Char.isDigit, (· = '-'), Char.isDigit, Char.isDigit,
   (· = ' '), Char.isDigit, Char.isDigit, (· = ':'), Char.isDigit,
   Char.isDigit, (· = ':'), Char.isDigit, Char.isDigit]

/-- Match a fixed character-class shape at the head of the list, returning
the matched characters. -/
def matchShape : List (Char → Bool) → List Char → Option (List Char)
  | [], _ => some []
  | _ :: _, [] => none
  | p :: ps, c :: cs => if p c then (matchShape ps cs).map (c :: ·) else none

/-- Leftmost match of the timestamp shape (Python `re.search`). -/
def searchTS : List Char → Option (List Char)
  | [] => none
  | c :: rest =>
    match matchShape tsShape (c :: rest) with
    | some m => some m
    | none => searchTS rest

/-- The six numeric fields (year, month, day, hour, minute, second) of a
19-character timestamp match. -/
def tsFields (m : List Char) : Nat × Nat × Nat × Nat × Nat × Nat :=
  (digitsToNat (m.take 4),
   digitsToNat ((m.drop 5).take 2),
   digitsToNat ((m.drop 8).take 2),
   digitsToNat ((m.drop 11).take 2),
   digitsToNat ((m.drop 14).take 2),
   digitsToNat ((m.drop 17).take 2))

/-- Gregorian leap-year rule used by Python `datetime`. -/
def isLeap (y : Nat) : Bool :=
  y % 4 = 0 && (y % 100 ≠ 0 || y % 400 = 0)

/-- Days in a month per Python `datetime`. -/
def daysInMonth (y m : Nat) : Nat :=
  if m = 2 then (if isLeap y then 29 else 28)
  else if m = 4 || m = 6 || m = 9 || m = 11 then 30
  else 31

/-- Validity check performed by `datetime.strptime(..., '%Y-%m-%d %H:%M:%S')`:
the call raises `ValueError` exactly when this is false. -/
def tsValid (m : List Char) : Bool :=
  match tsFields m with
  | (y, mo, d, h, mi, s) =>
    1 ≤ y && 1 ≤ mo && mo ≤ 12 && 1 ≤ d && d ≤ daysInMonth y mo &&
    h ≤ 23 && mi ≤ 59 && s ≤ 59

/-- Zero-pad a number below 100 to two digits (strftime `%m`/`%d`/`%H`/`%M`/`%S`). -/
def pad2 (n : Nat) : String :=
  if n < 10 then "0" ++ toString n else toString n

/-- `strftime('%Y/%m/%d %H:%M:%S')` on the parsed timestamp (`%Y` is not
zero-padded on glibc). -/
def formatTS (m : List Char) : String :=
  match tsFields m with
  | (y, mo, d, h, mi, s) =>
    toString y ++ "/" ++ pad2 mo ++ "/" ++ pad2 d ++ " " ++
    pad2 h ++ ":" ++ pad2 mi ++ ":" ++ pad2 s

/-- Field 2 of a record (src lines 158-163): reformat the leftmost embedded
timestamp; empty string when no shape match; `ValueError` (modelled as
`Except.error`) when the match is not a valid calendar datetime. -/
def field2 (dts : String) : Except Unit String :=
  match searchTS dts.data with
  | none => .ok ""
  | some m => if tsValid m then .ok (formatTS m) else .error ()

/-! ## Cells and records

A record is the 28-field logical row (`CSV_HEADERS`, src lines 108-116),
indexed by `Fin 28`:
0 account id, 1 room id, 2 start datetime, 3 duration minutes,
4 consecutive-days, 5 room name, 6-27 engagement metrics
(9 is the SP-gift rate column).  A cell value mirrors the Python value
stored in the DataFrame: `str`, `int`, or `float` (rate column; finite
float values are carried as exact rationals, signed infinities — which
`pd.to_numeric` produces from `"inf"` strings — as `Cell.inf`). -/

inductive Cell where
  | s : String → Cell
  | i : Int → Cell
  | r : Rat → Cell
  | inf : Bool → Cell
deriving DecidableEq

/-- One logical 28-field record. -/
def Rec : Type := Fin 28 → Cell

instance : DecidableEq Rec := by unfold Rec; infer_instance

/-- `value.replace(',', '').replace('%', '')` (src line 180). -/
def removeCommaPct (s : String) : String :=
  String.mk (s.data.filter (fun c => !(c = ',' || c = '%')))

/-- Build the 28-field record from the 27 `td.delim` cell texts and the
already computed field-2 string (src lines 147-182): fields 0 and 1 are
trimmed identifiers; field 2 the reformatted timestamp; field 3 the parsed
duration; fields 4-27 come from html cells 3-26, with comma/percent removal
exactly for csv indices 6-27, then trimmed. -/
def mkRec (cells : List String) (d2 : String) : Rec := fun j =>
  if j.val = 0 then .s (pstrip (cells.getD 0 ""))
  else if j.val = 1 then .s (pstrip (cells.getD 1 ""))
  else if j.val = 2 then .s d2
  else if j.val = 3 then .i (parse_live_duration (pstrip (cells.getD 2 "")))
  else if 6 ≤ j.val then .s (pstrip (removeCommaPct (cells.getD (j.val - 1) "")))
  else .s (pstrip (cells.getD (j.val - 1) ""))

/-- Per-row step of the extraction loop (src lines 141-184): a row whose
`td.delim` cell count differs from 27 is skipped (`ok none`); otherwise the
record is built, propagating the `strptime` `ValueError` if any. -/
def rowStep (cells : List String) : Except Unit (Option Rec) :=
  if cells.length = 27 then
    match field2 (pstrip (cells.getD 2 "")) with
    | .error e => .error e
    | .ok d2 => .ok (some (mkRec cells d2))
  else .ok none

/-- Project a field out of a row-extraction outcome (none when the row was
skipped or extraction raised). -/
def getField (e : Except Unit (Option Rec)) (j : Fin 28) : Option Cell :=
  match e with
  | .ok (some r) => some (r j)
  | _ => none

/-! ## Page Fetcher/Walker: `scrape_kpi_data` (src lines 118-195)

A fetched page is abstracted at the BeautifulSoup boundary:
`httpError` is a failed `session.get`/`raise_for_status`; `noTable` means
`soup.find('table', {'class': 'table-striped'})` returns `None` (so the
chained `.find('tbody')` raises `AttributeError`); `tableNoTbody` means the
table exists but has no `tbody`; `rows rs` gives, for each `tr` of the
`tbody`, the list of its `td.delim` cell texts. -/

inductive PageResp where
  | httpError
  | noTable
  | tableNoTbody
  | rows (rs : List (List String))

/-- Extract all records of one page's rows in order, skipping rows whose
cell count is not 27 and propagating a `strptime` error. -/
def extractRows : List (List String) → Except Unit (List Rec)
  | [] => .ok []
  | row :: rest =>
    match rowStep row with
    | .error e => .error e
    | .ok none => extractRows rest
    | .ok (some r) =>
      match extractRows rest with
      | .error e => .error e
      | .ok l => .ok (r :: l)

/-- `data_found` flag of the row loop (src lines 140-146): set as soon as
some row has exactly 27 `td.delim` cells. -/
def hasValidRows (resp : PageResp) : Bool :=
  match resp with
  | .rows rs => rs.any (fun row => row.length == 27)
  | _ => false

/-- The page loop (src lines 118-188), by current page number and remaining
fuel of the `range(1, MAX_PAGES + 1)` iteration.  Returns the list of
requested pages and either the accumulated records or an uncaught Python
exception.  Stops early on HTTP error (keeping records so far), on missing
`tbody`, or when a page has no 27-cell row; a missing table raises
(`AttributeError` on `None`). -/
def walkFrom (pages : Nat → PageResp) :
    Nat → Nat → List Nat → List Rec → List Nat × Except Unit (List Rec)
  | _, 0, fetched, acc => (fetched, .ok acc)
  | p, fuel + 1, fetched, acc =>
    match pages p with
    | .httpError => (fetched ++ [p], .ok acc)
    | .noTable => (fetched ++ [p], .error ())
    | .tableNoTbody => (fetched ++ [p], .ok acc)
    | .rows rs =>
      match extractRows rs with
      | .error e => (fetched ++ [p], .error e)
      | .ok newRecs =>
        if rs.any (fun row => row.length == 27) then
          walkFrom pages (p + 1) fuel (fetched ++ [p]) (acc ++ newRecs)
        else
          (fetched ++ [p], .ok (acc ++ newRecs))

/-- `scrape_kpi_data` (src lines 95-195): walk pages 1..5 (`MAX_PAGES = 5`)
for one month; the `pages` function abstracts the per-page HTTP response. -/
def scrape_kpi_data (pages : Nat → PageResp) : List Nat × Except Unit (List Rec) :=
  walkFrom pages 1 5 [] []

/-! ## Python number printing and pandas parsing -/

/-- Decimal digit character. -/
def digitChar (n : Nat) : Char :=
  match n with
  | 0 => '0' | 1 => '1' | 2 => '2' | 3 => '3' | 4 => '4'
  | 5 => '5' | 6 => '6' | 7 => '7' | 8 => '8' | _ => '9'

/-- Decimal digit list of a natural number (most significant first). -/
def natToDigits (n : Nat) : List Char :=
  if _h : n < 10 then [digitChar n]
  else natToDigits (n / 10) ++ [digitChar (n % 10)]
decreasing_by exact Nat.div_lt_self (by omega) (by omega)

/-- Python `str(int)`. -/
def intToStr (z : Int) : String :=
  if z < 0 then "-" ++ String.mk (natToDigits z.natAbs)
  else String.mk (natToDigits z.toNat)

/-- Python `str(float)` (shortest repr) for the floats this pipeline
produces: rationals with denominator dividing 10.  Other rationals do not
arise from the code; they get an inert placeholder. -/
def ratToStr (q : Rat) : String :=
  if q.den = 1 then intToStr q.num ++ ".0"
  else if (q * 10).den = 1 then
    (if q < 0 then "-" else "") ++
    String.mk (natToDigits ((q * 10).num.natAbs / 10)) ++ "." ++
    String.mk (natToDigits ((q * 10).num.natAbs % 10))
  else intToStr q.num ++ "/" ++ String.mk (natToDigits q.den)

/-- pandas `astype(str)` on a stored cell value (Python
`str(float('inf')) = 'inf'`). -/
def pyStr (c : Cell) : String :=
  match c with
  | .s v => v
  | .i z => intToStr z
  | .r q => ratToStr q
  | .inf b => if b then "-inf" else "inf"

/-- A numeric value produced by `pd.to_numeric` from a string: a finite
number (carried as an exact rational; the float64 quantization of the real
parser is abstracted away) or a signed infinity.  `NaN` outcomes (both
unparseable strings under `errors='coerce'` and the literal `"nan"`)
are represented as `none` at the use sites. -/
inductive PyNum where
  | fin : Rat → PyNum
  | pinf : Bool → PyNum
deriving DecidableEq

/-- ASCII lowercasing, as applied by the numeric parser's handling of
`inf`/`nan` spellings. -/
def lowerAscii (c : Char) : Char :=
  if 65 ≤ c.toNat ∧ c.toNat ≤ 90 then Char.ofNat (c.toNat + 32) else c

/-- Exponent digits with sign already split off: `rest` must be a nonempty
digit run; scales the mantissa by the corresponding power of ten. -/
def parseExpDigits (l : List Char) (eneg : Bool) (base : Rat) : Option Rat :=
  if l ≠ [] ∧ l.all Char.isDigit = true then
    some (base * (10 : Rat) ^
      (if eneg then -(digitsToNat l : Int) else (digitsToNat l : Int)))
  else none

/-- Optional `e`/`E` exponent suffix of a numeric literal. -/
def parseExpPart (l : List Char) (base : Rat) : Option Rat :=
  match l with
  | [] => some base
  | c :: rest =>
    if c = 'e' ∨ c = 'E' then
      match rest with
      | [] => none
      | d :: rest2 =>
        if d = '+' then parseExpDigits rest2 false base
        else if d = '-' then parseExpDigits rest2 true base
        else parseExpDigits (d :: rest2) false base
    else none

/-- Unsigned decimal literal: digits with optional fraction part
(`"5"`, `"5."`, `".5"`, `"12.5"`) and optional exponent (`"1e3"`). -/
def parseDecExp (l : List Char) : Option Rat :=
  let ip := l.takeWhile Char.isDigit
  let rest := l.dropWhile Char.isDigit
  if rest = [] then
    if ip = [] then none else some ((digitsToNat ip : Nat) : Rat)
  else if rest.headD ' ' = '.' then
    let fp := rest.tail.takeWhile Char.isDigit
    if ip = [] ∧ fp = [] then none
    else parseExpPart (rest.tail.dropWhile Char.isDigit)
      ((digitsToNat ip : Rat) + (digitsToNat fp : Rat) / 10 ^ fp.length)
  else if ip = [] then none
  else parseExpPart rest ((digitsToNat ip : Nat) : Rat)

/-- Unsigned part of the `to_numeric` string parser: `inf`/`infinity`
(case-insensitive) give an infinity, `nan` gives NaN (`none`), otherwise a
decimal/scientific literal. -/
def parseUnsigned (l : List Char) (neg : Bool) : Option PyNum :=
  if l.map lowerAscii = "inf".data ∨ l.map lowerAscii = "infinity".data then
    some (.pinf neg)
  else if l.map lowerAscii = "nan".data then none
  else (parseDecExp l).map (fun q => .fin (if neg then -q else q))

/-- `pd.to_numeric(s, errors='coerce')` on a stripped string: optional
sign, then a decimal/scientific literal or an `inf`/`nan` spelling;
anything else coerces to NaN (`none`). -/
def parsePyNum (s : String) : Option PyNum :=
  match s.data with
  | [] => none
  | c :: rest =>
    if c = '+' then parseUnsigned rest false
    else if c = '-' then parseUnsigned rest true
    else parseUnsigned (c :: rest) false

/-- Round half to even to an integer (numpy/pandas rounding). -/
def roundHalfEven (x : Rat) : Int :=
  let f := ⌊x⌋
  let r := x - (f : Rat)
  if r < 1/2 then f
  else if 1/2 < r then f + 1
  else if f % 2 = 0 then f else f + 1

/-- pandas `.round(1)`: round to one decimal place, modelled exactly on
rationals. -/
def roundTenth (q : Rat) : Rat :=
  ((roundHalfEven (q * 10) : Int) : Rat) / 10

/-! ## Normalizer: `process_kpi_data` (src lines 198-268) -/

/-- The designated integer columns `numeric_cols` (src lines 207-214):
logical indices 3, 4 and 6-27 except the rate column 9. -/
def isNumericCol (j : Fin 28) : Bool :=
  j.val == 3 || j.val == 4 || (6 ≤ j.val && j.val ≠ 9)

/-- Integer-column conversion (src lines 224-233): `astype(str).str.strip()`,
empty string and `'-'` become missing, then
`pd.to_numeric(..., errors='coerce')` (unparseable cells coerce to NaN,
i.e. missing) followed by `.astype('Int64')`, which raises a `TypeError`
(modelled as `Except.error`) when a parsed value is not an integer —
non-integral like `"12.5"` or infinite like `"inf"`. -/
def toNumInt (c : Cell) : Except Unit (Option Int) :=
  let s := pstrip (pyStr c)
  if s = "" ∨ s = "-" then .ok none
  else
    match parsePyNum s with
    | none => .ok none
    | some (.pinf _) => .error ()
    | some (.fin q) => if q.den = 1 then .ok (some q.num) else .error ()

/-- Rate-column conversion (src lines 218-221): `astype(str).str.strip()`,
empty string and `'-'` become missing, `to_numeric`/`float` (never raises:
unparseable coerces to NaN), `.round(1)` (infinities round to themselves). -/
def toNumRate (c : Cell) : Option PyNum :=
  let s := pstrip (pyStr c)
  if s = "" ∨ s = "-" then none
  else
    match parsePyNum s with
    | none => none
    | some (.pinf b) => some (.pinf b)
    | some (.fin q) => some (.fin (roundTenth q))

/-- Store a parsed float back into a DataFrame cell. -/
def cellOfPyNum (p : PyNum) : Cell :=
  match p with
  | .fin q => Cell.r q
  | .pinf b => Cell.inf b

/-- The successful value of an integer-column conversion (meaningful when
the conversion did not raise). -/
def okD (e : Except Unit (Option Int)) : Option Int :=
  match e with
  | .ok o => o
  | .error _ => none

/-- Whether `astype('Int64')` raises on this cell. -/
def cellBad (c : Cell) : Bool :=
  match toNumInt c with
  | .error _ => true
  | .ok _ => false

/-- Whether converting this record's integer columns raises a `TypeError`
(pandas converts column-wise; one bad cell aborts the whole
`process_kpi_data` call). -/
def recBad (r : Rec) : Bool :=
  (List.finRange 28).any (fun j => isNumericCol j && cellBad (r j))

/-- The typed (pre-rendering) record after the numeric conversions, when
they succeed: `none` is a pandas missing value (`pd.NA`/`NaN`). -/
def convOk (r : Rec) : Fin 28 → Option Cell := fun j =>
  if j.val = 9 then (toNumRate (r j)).map cellOfPyNum
  else if isNumericCol j then (okD (toNumInt (r j))).map Cell.i
  else some (r j)

/-- Convert one record, raising iff some integer column raises. -/
def convRecord (r : Rec) : Except Unit (Fin 28 → Option Cell) :=
  if recBad r then .error () else .ok (convOk r)

/-- Convert all records; the first raising cell aborts the conversion
(observationally the column-wise pandas conversion: it raises iff some
cell raises). -/
def convAll : List Rec → Except Unit (List (Fin 28 → Option Cell))
  | [] => .ok []
  | r :: rest =>
    match convRecord r with
    | .error e => .error e
    | .ok g =>
      match convAll rest with
      | .error e => .error e
      | .ok L => .ok (g :: L)

/-- Dedupe key (src line 236): account id, room id, start datetime,
duration minutes — read off the converted DataFrame. -/
def key0 (g : Fin 28 → Option Cell) : Option Cell × Option Cell × Option Cell × Option Cell :=
  (g 0, g 1, g 2, g 3)

/-- `drop_duplicates(keep='first')` generically: keep each element whose key
has not been seen before. -/
def dedupeBy {α κ : Type} [DecidableEq κ] (key : α → κ) :
    List α → List κ → List α
  | [], _ => []
  | x :: xs, seen =>
    if key x ∈ seen then dedupeBy key xs seen
    else x :: dedupeBy key xs (key x :: seen)

/-- Final rendering (src lines 257-266): missing values become the empty
string. -/
def renderRecord (g : Fin 28 → Option Cell) : Rec := fun j =>
  (g j).getD (Cell.s "")

/-- `process_kpi_data` (src lines 198-268): empty input short-circuits;
otherwise convert the rate and integer columns (propagating the
`astype('Int64')` `TypeError` on non-integral or infinite numeric cells),
drop duplicate (account, room, datetime, duration) rows keeping the first,
select the 28 canonical columns (the identity on this fixed-shape model),
and render missing values as empty strings. -/
def process_kpi_data (df : List Rec) : Except Unit (List Rec) :=
  if df = [] then .ok []
  else
    match convAll df with
    | .error e => .error e
    | .ok L => .ok ((dedupeBy key0 L []).map renderRecord)

/-- Dedupe key of a finalized record. -/
def dedupKey (h : Rec) : Cell × Cell × Cell × Cell :=
  (h 0, h 1, h 2, h 3)

/-- Rendering of a converted dedupe key (missing components become the
empty-string cell). -/
def mapKey4 (k : Option Cell × Option Cell × Option Cell × Option Cell) :
    Cell × Cell × Cell × Cell :=
  (k.1.getD (Cell.s ""), k.2.1.getD (Cell.s ""),
   k.2.2.1.getD (Cell.s ""), k.2.2.2.getD (Cell.s ""))

/-- Whether the combined datetime cell would survive `strptime`: either no
shape match, or a valid leftmost match. -/
def tsOk (s : String) : Bool :=
  match searchTS (pstrip s).data with
  | none => true
  | some m => tsValid m

/-! ## Concrete inputs used by witnesses and counterexamples -/

/-- A 27-cell row whose datetime cell carries a shape-matching but
calendar-invalid timestamp (February 30). -/
def c2row : List String :=
  ["idA", "roomA", "2024-02-30 12:00:00 (5m10s)"] ++ List.replicate 24 "7"

/-- A well-formed 27-cell row with no embedded timestamp. -/
def cgoodrow : List String := List.replicate 27 "z"

/-- A 27-cell row with comma-grouped values in html cells 4 (logical field
5, the room name) and 26 (logical field 27). -/
def c4row : List String :=
  ["a", "b", "c", "9", "1,000"] ++ List.replicate 21 "7" ++ ["2,000"]

/-- The spec's end-to-end row: timestamp `2024-05-01 20:15:00`, duration
`(12m30s)`. -/
def c5row : List String :=
  ["idB", "roomB", "2024-05-01 20:15:00 (12m30s)"] ++ List.replicate 24 "8"

/-- A 27-cell row whose datetime cell matches the timestamp shape with an
invalid calendar date (June 31). -/
def c5badrow : List String :=
  ["idC", "roomC", "2025-06-31 10:00:00 (3m0s)"] ++ List.replicate 24 "6"

/-- The character list matched by the timestamp regex in
`"2024-05-01 20:15:00"`. -/
def ts0 : List Char :=
  ['2', '0', '2', '4', '-', '0', '5', '-', '0', '1', ' ',
   '2', '0', ':', '1', '5', ':', '0', '0']

/-- Month with valid rows on pages 1 and 2 and an empty page 3. -/
def pages3 : Nat → PageResp := fun p =>
  if p ≤ 2 then .rows [List.replicate 27 "x"] else .rows []

/-- Month with one valid row on page 1 and an empty page 2. -/
def pages10 : Nat → PageResp := fun p =>
  if p = 1 then .rows [List.replicate 27 "y"] else .rows []

/-- The single record scraped from `pages10`. -/
def rec10 : Rec := mkRec (List.replicate 27 "y") ""

/-- The finalized record obtained from `rec10`. -/
def h10 : Rec := renderRecord (convOk rec10)

/-- A raw record whose cells are all the string `"a"`. -/
def recA : Rec := fun _ => Cell.s "a"

/-- A raw record agreeing with `recA` on the four dedupe-key fields. -/
def recB : Rec := fun j => if j.val ≤ 3 then Cell.s "a" else Cell.s "b"

/-- A raw record with a decimal rate cell, an empty metric cell, a hyphen
metric cell, and comma-free numerals elsewhere. -/
def rec8 : Rec := fun j =>
  if j.val = 9 then Cell.s "12.34"
  else if j.val = 7 then Cell.s ""
  else if j.val = 8 then Cell.s "-"
  else Cell.s "1234"

/-- The finalized record obtained from `rec8`. -/
def h8 : Rec := renderRecord (convOk rec8)

/-- A raw record with the non-integral numeric cell "12.5" in a designated
integer column (logical index 7). -/
def c8badrec : Rec := fun j =>
  if j.val = 7 then Cell.s "12.5" else Cell.s "1"

/-- The normalized table of `[recA, recB]` (the duplicate is dropped). -/
def out3 : List Rec := [renderRecord (convOk recA)]

/-- The dedupe key shared by `recA` and `recB` after conversion. -/
def k3 : Cell × Cell × Cell × Cell := dedupKey (renderRecord (convOk recA))

/-- A one-record normalized table used to exercise idempotence. -/
def out9 : List Rec := [renderRecord (convOk recA)]

/-! ## Generic list and dedupe lemmas -/

theorem dropWhile_eq_self_of {α : Type} (p : α → Bool) (l : List α)
    (h : ∀ c ∈ l, p c = false) : l.dropWhile p = l := by
  cases l with
  | nil => rfl
  | cons a l => simp [List.dropWhile_cons, h a (by simp)]

theorem takeWhile_eq_self_of {α : Type} (p : α → Bool) :
    ∀ l : List α, (∀ c ∈ l, p c = true) → l.takeWhile p = l := by
  intro l
  induction l with
  | nil => intro _; rfl
  | cons a l ih =>
    intro h
    have ha : p a = true := h a (by simp)
    have ht := ih fun c hc => h c (by simp [hc])
    simp [List.takeWhile_cons, ha, ht]

theorem dropWhile_eq_nil_of {α : Type} (p : α → Bool) :
    ∀ l : List α, (∀ c ∈ l, p c = true) → l.dropWhile p = [] := by
  intro l
  induction l with
  | nil => intro _; rfl
  | cons a l ih =>
    intro h
    have ha : p a = true := h a (by simp)
    have ht := ih fun c hc => h c (by simp [hc])
    simp [List.dropWhile_cons, ha, ht]

theorem takeWhile_append_of {α : Type} (p : α → Bool) (c : α) (l2 : List α)
    (h2 : p c = false) :
    ∀ l1 : List α, (∀ x ∈ l1, p x = true) →
      (l1 ++ c :: l2).takeWhile p = l1 := by
  intro l1
  induction l1 with
  | nil => intro _; simp [List.takeWhile_cons, h2]
  | cons a l ih =>
    intro h1
    have ha : p a = true := h1 a (by simp)
    have ht := ih fun x hx => h1 x (by simp [hx])
    simp [List.cons_append, List.takeWhile_cons, ha, ht]

theorem dropWhile_append_of {α : Type} (p : α → Bool) (c : α) (l2 : List α)
    (h2 : p c = false) :
    ∀ l1 : List α, (∀ x ∈ l1, p x = true) →
      (l1 ++ c :: l2).dropWhile p = c :: l2 := by
  intro l1
  induction l1 with
  | nil => intro _; simp [List.dropWhile_cons, h2]
  | cons a l ih =>
    intro h1
    have ha : p a = true := h1 a (by simp)
    have ht := ih fun x hx => h1 x (by simp [hx])
    simp [List.cons_append, List.dropWhile_cons, ha, ht]

theorem dedupeBy_sublist {α κ : Type} [DecidableEq κ] (key : α → κ) :
    ∀ (l : List α) (seen : List κ), List.Sublist (dedupeBy key l seen) l := by
  intro l
  induction l with
  | nil => intro seen; exact List.Sublist.refl []
  | cons x xs ih =>
    intro seen
    unfold dedupeBy
    by_cases h : key x ∈ seen
    · simp only [if_pos h]
      exact (ih seen).cons x
    · simp only [if_neg h]
      exact (ih (key x :: seen)).cons₂ x

theorem dedupeBy_keys_nodup {α κ : Type} [DecidableEq κ] (key : α → κ) :
    ∀ (l : List α) (seen : List κ),
      (∀ k ∈ seen, k ∉ (dedupeBy key l seen).map key) ∧
      ((dedupeBy key l seen).map key).Nodup := by
  intro l
  induction l with
  | nil => intro seen; simp [dedupeBy]
  | cons x xs ih =>
    intro seen
    unfold dedupeBy
    by_cases h : key x ∈ seen
    · simp only [if_pos h]
      exact ih seen
    · simp only [if_neg h, List.map_cons, List.nodup_cons]
      refine ⟨?_, ?_, ?_⟩
      · intro k hk
        simp only [List.mem_cons]
        rintro (rfl | hk2)
        · exact h hk
        · exact (ih (key x :: seen)).1 k (by simp [hk]) hk2
      · exact (ih (key x :: seen)).1 (key x) (by simp)
      · exact (ih (key x :: seen)).2

theorem dedupeBy_find? {α κ : Type} [DecidableEq κ] (key : α → κ)
    (q : κ → Bool) :
    ∀ (l : List α) (seen : List κ), (∀ k ∈ seen, q k = false) →
      (dedupeBy key l seen).find? (fun x => q (key x)) =
        l.find? (fun x => q (key x)) := by
  intro l
  induction l with
  | nil => intro seen _; rfl
  | cons x xs ih =>
    intro seen hseen
    unfold dedupeBy
    by_cases h : key x ∈ seen
    · simp only [if_pos h]
      rw [ih seen hseen, List.find?_cons]
      simp [hseen (key x) h]
    · simp only [if_neg h]
      rw [List.find?_cons, List.find?_cons]
      cases hq : q (key x) with
      | true => rfl
      | false =>
        simp only []
        refine ih (key x :: seen) ?_
        intro k hk
        rcases List.mem_cons.mp hk with rfl | hk2
        · exact hq
        · exact hseen k hk2

theorem dedupeBy_eq_self {α κ : Type} [DecidableEq κ] (key : α → κ) :
    ∀ (l : List α) (seen : List κ), (l.map key).Nodup →
      (∀ x ∈ l, key x ∉ seen) → dedupeBy key l seen = l := by
  intro l
  induction l with
  | nil => intro seen _ _; rfl
  | cons x xs ih =>
    intro seen hnd hs
    unfold dedupeBy
    rw [if_neg (hs x (by simp))]
    congr 1
    simp only [List.map_cons, List.nodup_cons] at hnd
    refine ih (key x :: seen) hnd.2 ?_
    intro y hy
    simp only [List.mem_cons]
    rintro (hxy | hys)
    · exact hnd.1 (hxy ▸ List.mem_map_of_mem key hy)
    · exact hs y (by simp [hy]) hys

/-! ## Character and digit-string lemmas -/

theorem isDigit_not_space (c : Char) (h : c.isDigit = true) :
    isPySpace c = false := by
  cases h2 : isPySpace c with
  | false => rfl
  | true =>
    exfalso
    simp only [isPySpace, Bool.or_eq_true, decide_eq_true_eq] at h2
    rcases h2 with ((((h2 | h2) | h2) | h2) | h2) | h2 <;> subst h2 <;>
      exact absurd h (by decide)

theorem stripChars_eq_self (l : List Char)
    (h : ∀ c ∈ l, isPySpace c = false) : stripChars l = l := by
  unfold stripChars
  rw [dropWhile_eq_self_of _ _ h,
    dropWhile_eq_self_of _ _ (fun c hc => h c (by simpa using hc)),
    List.reverse_reverse]

theorem pstrip_eq_self (s : String) (h : ∀ c ∈ s.data, isPySpace c = false) :
    pstrip s = s := by
  unfold pstrip
  rw [stripChars_eq_self _ h]

theorem digitChar_isDigit (n : Nat) : (digitChar n).isDigit = true := by
  unfold digitChar
  split <;> decide

theorem charVal_digitChar (n : Nat) (h : n < 10) :
    charVal (digitChar n) = n := by
  interval_cases n <;> decide

theorem natToDigits_ne_nil (n : Nat) : natToDigits n ≠ [] := by
  rw [natToDigits]
  split
  · simp
  · simp

theorem natToDigits_all_digit (n : Nat) :
    ∀ c ∈ natToDigits n, c.isDigit = true := by
  induction n using Nat.strong_induction_on with
  | _ n ih =>
    rw [natToDigits]
    split
    · intro c hc
      rw [List.mem_singleton] at hc
      subst hc
      exact digitChar_isDigit n
    · intro c hc
      rcases List.mem_append.mp hc with h1 | h2
      · exact ih (n / 10) (Nat.div_lt_self (by omega) (by omega)) c h1
      · rw [List.mem_singleton] at h2
        subst h2
        exact digitChar_isDigit (n % 10)

theorem digitsToNat_append_one (l : List Char) (c : Char) :
    digitsToNat (l ++ [c]) = 10 * digitsToNat l + charVal c := by
  unfold digitsToNat
  rw [List.foldl_append]
  rfl

theorem digitsToNat_natToDigits (n : Nat) :
    digitsToNat (natToDigits n) = n := by
  induction n using Nat.strong_induction_on with
  | _ n ih =>
    rw [natToDigits]
    split
    · rename_i h
      show digitsToNat [digitChar n] = n
      unfold digitsToNat
      simp [List.foldl_cons, charVal_digitChar n h]
    · rename_i h
      rw [digitsToNat_append_one,
        ih (n / 10) (Nat.div_lt_self (by omega) (by omega)),
        charVal_digitChar (n % 10) (by omega)]
      omega

/-! ## C1: the Duration Parser -/

/-- C1: for every input string, `parse_live_duration` returns minutes + 1
when the leftmost embedded `(<minutes>m<seconds>s)` token has seconds >= 30,
the minutes unchanged when seconds < 30, and 0 when no such token is
present; in particular on the spec's examples. -/
theorem c1_duration_rounding :
    (∀ s : String, searchDur s.data = none → parse_live_duration s = 0) ∧
    (∀ (s : String) (m sec : Nat), searchDur s.data = some (m, sec) →
      30 ≤ sec → parse_live_duration s = m + 1) ∧
    (∀ (s : String) (m sec : Nat), searchDur s.data = some (m, sec) →
      sec < 30 → parse_live_duration s = m) ∧
    parse_live_duration "live (12m45s) end" = 13 ∧
    parse_live_duration "live (12m29s) end" = 12 ∧
    parse_live_duration "live (12m30s) end" = 13 ∧
    parse_live_duration "no duration here" = 0 := by
  refine ⟨?_, ?_, ?_, by decide, by decide, by decide, by decide⟩
  · intro s h
    unfold parse_live_duration
    rw [h]
  · intro s m sec h hs
    unfold parse_live_duration
    rw [h]
    simp [hs]
  · intro s m sec h hs
    unfold parse_live_duration
    rw [h]
    simp [Nat.not_le.mpr hs]

/-- C1 witness: the general rule applied at a concrete input. -/
theorem c1_duration_rounding_witness : parse_live_duration "(5m45s)" = 5 + 1 :=
  c1_duration_rounding.2.1 "(5m45s)" 5 45 (by decide) (by decide)

/-! ## C6: missing results table raises instead of stopping -/

/-- C6 (code bug evidence): a page body with no `table.table-striped` at all
makes the walk abort with an uncaught exception (`soup.find(...)` is `None`
and `.find('tbody')` raises `AttributeError`), while a table without a
`tbody` stops the walk normally — the claimed end-of-data behavior only
covers the second case. -/
theorem c6_no_table_raises :
    scrape_kpi_data (fun _ => PageResp.noTable) = ([1], Except.error ()) ∧
    scrape_kpi_data (fun _ => PageResp.tableNoTbody) = ([1], Except.ok []) :=
  ⟨rfl, rfl⟩

/-! ## C7: page bound and stopping rule of the walk -/

theorem walkFrom_spec (pages : Nat → PageResp) :
    ∀ (fuel p : Nat) (fetched : List Nat) (acc : List Rec),
      ∃ k, k ≤ fuel ∧
        (walkFrom pages p fuel fetched acc).1 = fetched ++ List.range' p k ∧
        ∀ i : Nat, i + 1 < k → hasValidRows (pages (p + i)) = true := by
  intro fuel
  induction fuel with
  | zero =>
    intro p fetched acc
    refine ⟨0, Nat.le_refl 0, by simp [walkFrom], ?_⟩
    intro i hi
    exact absurd hi (by omega)
  | succ fuel ih =>
    intro p fetched acc
    cases hp : pages p with
    | httpError =>
      refine ⟨1, by omega, by simp [walkFrom, hp, List.range'_one], ?_⟩
      intro i hi
      exact absurd hi (by omega)
    | noTable =>
      refine ⟨1, by omega, by simp [walkFrom, hp, List.range'_one], ?_⟩
      intro i hi
      exact absurd hi (by omega)
    | tableNoTbody =>
      refine ⟨1, by omega, by simp [walkFrom, hp, List.range'_one], ?_⟩
      intro i hi
      exact absurd hi (by omega)
    | rows rs =>
      cases he : extractRows rs with
      | error e =>
        refine ⟨1, by omega, by simp [walkFrom, hp, he, List.range'_one], ?_⟩
        intro i hi
        exact absurd hi (by omega)
      | ok newRecs =>
        by_cases hd : rs.any (fun row => row.length == 27) = true
        · obtain ⟨k, hk, heq, hv⟩ := ih (p + 1) (fetched ++ [p]) (acc ++ newRecs)
          refine ⟨k + 1, by omega, ?_, ?_⟩
          · have hred : (walkFrom pages p (fuel + 1) fetched acc).1 =
                (walkFrom pages (p + 1) fuel (fetched ++ [p]) (acc ++ newRecs)).1 := by
              simp [walkFrom, hp, he, hd]
            rw [hred, heq, List.range'_succ, List.append_assoc]
            rfl
          · intro i hi
            cases i with
            | zero =>
              simp only [Nat.add_zero]
              rw [hp]
              simpa [hasValidRows] using hd
            | succ i =>
              rw [show p + (i + 1) = p + 1 + i by omega]
              exact hv i (by omega)
        · refine ⟨1, by omega, ?_, ?_⟩
          · simp [walkFrom, hp, he, hd, List.range'_one]
          · intro i hi
            exact absurd hi (by omega)

/-- C7: for every month, at most 5 pages are requested, and page n + 1 is
never requested when page n (n >= 1) yields zero valid (27-cell) rows. -/
theorem c7_page_walk (pages : Nat → PageResp) :
    (scrape_kpi_data pages).1.length ≤ 5 ∧
    ∀ n : Nat, 1 ≤ n → hasValidRows (pages n) = false →
      (n + 1) ∉ (scrape_kpi_data pages).1 := by
  obtain ⟨k, hk, heq, hv⟩ := walkFrom_spec pages 5 1 [] []
  have heq2 : (scrape_kpi_data pages).1 = List.range' 1 k := by
    unfold scrape_kpi_data
    rw [heq]
    simp
  constructor
  · rw [heq2, List.length_range']
    exact hk
  · intro n hn hval hmem
    rw [heq2, List.mem_range'] at hmem
    obtain ⟨i, hik, hi⟩ := hmem
    have hin : i = n := by omega
    subst hin
    have hvn := hv (i - 1) (by omega)
    rw [show 1 + (i - 1) = i by omega] at hvn
    rw [hval] at hvn
    exact absurd hvn (by simp)

/-- C7 witness: with valid rows on pages 1-2 and an empty page 3, the walk
requests exactly pages 1, 2, 3 and never page 4 (the spec's end-to-end
example). -/
theorem c7_page_walk_witness :
    (scrape_kpi_data pages3).1 = [1, 2, 3] ∧
    (4 : Nat) ∉ (scrape_kpi_data pages3).1 :=
  ⟨rfl, (c7_page_walk pages3).2 3 (by omega) (by rfl)⟩

/-! ## Row-extraction lemmas and claims C2, C5, C4 -/

theorem rowStep_ok_some (cells : List String) (r : Rec)
    (h : rowStep cells = .ok (some r)) :
    cells.length = 27 ∧ ∃ d2 : String, r = mkRec cells d2 := by
  unfold rowStep at h
  by_cases h27 : cells.length = 27
  · rw [if_pos h27] at h
    cases hf : field2 (pstrip (cells.getD 2 "")) with
    | error e => rw [hf] at h; exact absurd h (by simp)
    | ok d2 =>
      rw [hf] at h
      simp only [Except.ok.injEq, Option.some.injEq] at h
      exact ⟨h27, d2, h.symm⟩
  · rw [if_neg h27] at h
    exact absurd h (by simp)

/-- C2 counterexample: a row with exactly 27 cells whose datetime cell
contains the shape-matching but invalid timestamp `2024-02-30 12:00:00`
makes the extractor raise (`strptime` `ValueError`) instead of producing a
record. -/
theorem c2_counterexample :
    c2row.length = 27 ∧ rowStep c2row = Except.error () :=
  ⟨by decide, by rfl⟩

/-- C2 (amended): a row with cell count different from 27 is skipped
without error, and a 27-cell row whose datetime cell passes `strptime`
(no shape match, or a calendar-valid leftmost match) yields a record with
all 28 logical fields. -/
theorem c2_row_extractor :
    (∀ cells : List String, cells.length ≠ 27 → rowStep cells = .ok none) ∧
    (∀ cells : List String, cells.length = 27 → tsOk (cells.getD 2 "") = true →
      ∃ r : Rec, rowStep cells = .ok (some r)) := by
  constructor
  · intro cells h
    unfold rowStep
    rw [if_neg h]
  · intro cells h27 ht
    unfold rowStep
    rw [if_pos h27]
    unfold tsOk at ht
    cases hs : searchTS (pstrip (cells.getD 2 "")).data with
    | none =>
      have hf : field2 (pstrip (cells.getD 2 "")) = .ok "" := by
        unfold field2
        rw [hs]
      rw [hf]
      exact ⟨mkRec cells "", rfl⟩
    | some m =>
      rw [hs] at ht
      have ht2 : tsValid m = true := ht
      have hf : field2 (pstrip (cells.getD 2 "")) = .ok (formatTS m) := by
        unfold field2
        rw [hs]
        simp [ht2]
      rw [hf]
      exact ⟨mkRec cells (formatTS m), rfl⟩

/-- C2 witness: a 3-cell row is skipped; a 27-cell row with a plain text
datetime cell yields a record. -/
theorem c2_row_extractor_witness :
    rowStep ["only", "three", "cells"] = .ok none ∧
    ∃ r : Rec, rowStep cgoodrow = .ok (some r) :=
  ⟨c2_row_extractor.1 ["only", "three", "cells"] (by decide),
   c2_row_extractor.2 cgoodrow (by decide) (by rfl)⟩

/-- C5 counterexample: timestamp handling can fail a 27-cell record with an
error — the datetime cell `2025-06-31 10:00:00 (3m0s)` matches the
timestamp shape but `strptime` raises on it. -/
theorem c5_counterexample : rowStep c5badrow = Except.error () := by rfl

/-- C5 (amended): a calendar-valid leftmost shape match is reformatted with
slashes, no shape match yields the empty string, and a shape-matching but
calendar-invalid timestamp raises; on the spec's example row field 2 is the
reformatted timestamp and field 3 the rounded-up duration. -/
theorem c5_timestamp_handling :
    (∀ (s : String) (m : List Char), searchTS s.data = some m →
      tsValid m = true → field2 s = .ok (formatTS m)) ∧
    (∀ s : String, searchTS s.data = none → field2 s = .ok "") ∧
    (∀ (s : String) (m : List Char), searchTS s.data = some m →
      tsValid m = false → field2 s = .error ()) ∧
    getField (rowStep c5row) 2 = some (Cell.s "2024/05/01 20:15:00") ∧
    getField (rowStep c5row) 3 = some (Cell.i 13) := by
  refine ⟨?_, ?_, ?_, by rfl, by rfl⟩
  · intro s m hs ht
    unfold field2
    rw [hs]
    simp [ht]
  · intro s hs
    unfold field2
    rw [hs]
  · intro s m hs ht
    unfold field2
    rw [hs]
    simp [ht]

/-- C5 witness: the valid-timestamp rule applied at a concrete input. -/
theorem c5_timestamp_handling_witness :
    field2 "2024-05-01 20:15:00" = .ok "2024/05/01 20:15:00" :=
  (c5_timestamp_handling.1 "2024-05-01 20:15:00" ts0 (by rfl) (by rfl)).trans
    (by rfl)

/-- C4 counterexample: on a 27-cell row, the field at 1-based logical
position 6 (0-based index 5, the room name, from html cell 4) keeps its
comma, while the field at 1-based position 28 (0-based index 27, outside
the claimed range) has its comma stripped. -/
theorem c4_counterexample :
    getField (rowStep c4row) 5 = some (Cell.s "1,000") ∧
    getField (rowStep c4row) 27 = some (Cell.s "2000") :=
  ⟨by rfl, by rfl⟩

/-- C4 (amended): comma/percent stripping applies exactly to the fields at
0-based logical indices 6 through 27 (1-based positions 7 through 28);
fields at indices 4-5 are only trimmed; the cleanup removes thousands
separators and percent signs and preserves a leading negative sign. -/
theorem c4_cleanup_range :
    (∀ (cells : List String) (r : Rec), rowStep cells = .ok (some r) →
      (∀ j : Fin 28, 6 ≤ j.val →
        r j = .s (pstrip (removeCommaPct (cells.getD (j.val - 1) "")))) ∧
      (∀ j : Fin 28, 4 ≤ j.val → j.val ≤ 5 →
        r j = .s (pstrip (cells.getD (j.val - 1) "")))) ∧
    removeCommaPct "1,234" = "1234" ∧
    removeCommaPct "12%" = "12" ∧
    removeCommaPct "-5" = "-5" := by
  refine ⟨?_, by decide, by decide, by decide⟩
  intro cells r h
  obtain ⟨-, d2, rfl⟩ := rowStep_ok_some cells r h
  constructor
  · intro j hj
    unfold mkRec
    rw [if_neg (by omega), if_neg (by omega), if_neg (by omega),
      if_neg (by omega), if_pos hj]
  · intro j hj4 hj5
    unfold mkRec
    rw [if_neg (by omega), if_neg (by omega), if_neg (by omega),
      if_neg (by omega), if_neg (by omega)]

/-- C4 witness: the in-range rule applied to the comma-grouped html cell 26
of the concrete row: the comma is stripped. -/
theorem c4_cleanup_range_witness : mkRec c4row "" 27 = Cell.s "2000" :=
  ((c4_cleanup_range.1 c4row (mkRec c4row "") (by rfl)).1 27
    (by decide)).trans (by rfl)

/-! ## Integer printing/parsing roundtrip -/

theorem natToDigits_lt_ten (n : Nat) (h : n < 10) :
    natToDigits n = [digitChar n] := by
  rw [natToDigits, dif_pos h]

theorem intToStr_no_space (z : Int) :
    ∀ c ∈ (intToStr z).data, isPySpace c = false := by
  intro c hc
  unfold intToStr at hc
  by_cases hz : z < 0
  · rw [if_pos hz] at hc
    have hd : ("-" ++ String.mk (natToDigits z.natAbs)).data =
        '-' :: natToDigits z.natAbs := rfl
    rw [hd] at hc
    rcases List.mem_cons.mp hc with rfl | hc2
    · decide
    · exact isDigit_not_space c (natToDigits_all_digit _ c hc2)
  · rw [if_neg hz] at hc
    exact isDigit_not_space c (natToDigits_all_digit _ c hc)

theorem pstrip_intToStr (z : Int) : pstrip (intToStr z) = intToStr z :=
  pstrip_eq_self _ (intToStr_no_space z)

theorem intToStr_ne_empty (z : Int) : intToStr z ≠ "" := by
  unfold intToStr
  by_cases hz : z < 0
  · rw [if_pos hz]
    intro h
    rw [String.ext_iff] at h
    exact absurd h (by simp)
  · rw [if_neg hz]
    intro h
    rw [String.ext_iff] at h
    exact absurd (show natToDigits z.toNat = [] from h) (natToDigits_ne_nil _)

theorem intToStr_ne_dash (z : Int) : intToStr z ≠ "-" := by
  unfold intToStr
  by_cases hz : z < 0
  · rw [if_pos hz]
    intro h
    rw [String.ext_iff] at h
    have h2 : natToDigits z.natAbs = [] := by
      have := congrArg List.length h
      simpa using this
    exact absurd h2 (natToDigits_ne_nil _)
  · rw [if_neg hz]
    intro h
    rw [String.ext_iff] at h
    have hm : '-' ∈ natToDigits z.toNat := by
      rw [show natToDigits z.toNat = ['-'] from h]
      simp
    have := natToDigits_all_digit z.toNat '-' hm
    exact absurd this (by decide)

theorem lowerAscii_digit (c : Char) (hc : c.isDigit = true) :
    lowerAscii c = c := by
  have h2 : c.toNat ≤ 57 := by
    simp only [Char.isDigit, Bool.and_eq_true, decide_eq_true_eq] at hc
    exact UInt32.toNat_le_of_le (by norm_num) hc.2
  unfold lowerAscii
  rw [if_neg (by omega)]

theorem isDigit_ne (c : Char) (hc : c.isDigit = true) (d : Char)
    (hd : d.isDigit = false) : c ≠ d := by
  intro h
  rw [h, hd] at hc
  exact absurd hc (by simp)

theorem parseUnsigned_digitHead (c : Char) (hc : c.isDigit = true)
    (t : List Char) (neg : Bool) :
    parseUnsigned (c :: t) neg =
      (parseDecExp (c :: t)).map
        (fun q => PyNum.fin (if neg then -q else q)) := by
  have hlow := lowerAscii_digit c hc
  have hi := isDigit_ne c hc 'i' (by decide)
  have hn := isDigit_ne c hc 'n' (by decide)
  have hinf : ¬((c :: t).map lowerAscii = ("inf" : String).data ∨
      (c :: t).map lowerAscii = ("infinity" : String).data) := by
    intro hcon
    rcases hcon with h1 | h1 <;>
    · rw [List.map_cons, hlow] at h1
      have h2 : c = 'i' := by
        simpa using congrArg (fun l => l.headD ' ') h1
      exact hi h2
  have hnan : ¬((c :: t).map lowerAscii = ("nan" : String).data) := by
    intro h1
    rw [List.map_cons, hlow] at h1
    have h2 : c = 'n' := by
      simpa using congrArg (fun l => l.headD ' ') h1
    exact hn h2
  unfold parseUnsigned
  rw [if_neg hinf, if_neg hnan]

theorem parsePyNum_mk_digitHead (c : Char) (hc : c.isDigit = true)
    (t : List Char) :
    parsePyNum (String.mk (c :: t)) = parseUnsigned (c :: t) false := by
  have hplus := isDigit_ne c hc '+' (by decide)
  have hminus := isDigit_ne c hc '-' (by decide)
  show (if c = '+' then parseUnsigned t false
    else if c = '-' then parseUnsigned t true
    else parseUnsigned (c :: t) false) = _
  rw [if_neg hplus, if_neg hminus]

theorem parseDecExp_digits (l : List Char) (hne : l ≠ [])
    (hd : ∀ c ∈ l, c.isDigit = true) :
    parseDecExp l = some ((digitsToNat l : Nat) : Rat) := by
  unfold parseDecExp
  rw [takeWhile_eq_self_of Char.isDigit l hd,
    dropWhile_eq_nil_of Char.isDigit l hd, if_pos rfl, if_neg hne]

theorem parsePyNum_intToStr (z : Int) :
    parsePyNum (intToStr z) = some (PyNum.fin ((z : Int) : Rat)) := by
  unfold intToStr
  by_cases hz : z < 0
  · rw [if_pos hz]
    show (if ('-' : Char) = '+' then parseUnsigned (natToDigits z.natAbs) false
      else if ('-' : Char) = '-' then parseUnsigned (natToDigits z.natAbs) true
      else parseUnsigned ('-' :: natToDigits z.natAbs) false) = _
    rw [if_neg (by decide), if_pos rfl]
    cases hnd : natToDigits z.natAbs with
    | nil => exact absurd hnd (natToDigits_ne_nil _)
    | cons c cs =>
      have hcd : c.isDigit = true :=
        natToDigits_all_digit _ c (by rw [hnd]; simp)
      rw [parseUnsigned_digitHead c hcd cs true, ← hnd,
        parseDecExp_digits _ (natToDigits_ne_nil _) (natToDigits_all_digit _),
        digitsToNat_natToDigits]
      have hab : ((z.natAbs : Nat) : Rat) = -((z : Int) : Rat) := by
        have h1 : ((z.natAbs : Nat) : Int) = -z := by omega
        calc ((z.natAbs : Nat) : Rat)
            = (((z.natAbs : Nat) : Int) : Rat) := (Int.cast_natCast _).symm
          _ = ((-z : Int) : Rat) := by rw [h1]
          _ = -((z : Int) : Rat) := by push_cast; ring
      simp [hab]
  · rw [if_neg hz]
    cases hnd : natToDigits z.toNat with
    | nil => exact absurd hnd (natToDigits_ne_nil _)
    | cons c cs =>
      have hcd : c.isDigit = true :=
        natToDigits_all_digit _ c (by rw [hnd]; simp)
      rw [parsePyNum_mk_digitHead c hcd cs,
        parseUnsigned_digitHead c hcd cs false, ← hnd,
        parseDecExp_digits _ (natToDigits_ne_nil _) (natToDigits_all_digit _),
        digitsToNat_natToDigits]
      have htn : ((z.toNat : Nat) : Rat) = ((z : Int) : Rat) := by
        have h1 : ((z.toNat : Nat) : Int) = z := by omega
        calc ((z.toNat : Nat) : Rat)
            = (((z.toNat : Nat) : Int) : Rat) := (Int.cast_natCast _).symm
          _ = ((z : Int) : Rat) := by rw [h1]
      simp [htn]

theorem toNumInt_int (z : Int) : toNumInt (Cell.i z) = .ok (some z) := by
  unfold toNumInt
  rw [show pyStr (Cell.i z) = intToStr z from rfl, pstrip_intToStr,
    if_neg (not_or.mpr ⟨intToStr_ne_empty z, intToStr_ne_dash z⟩),
    parsePyNum_intToStr]
  show (if ((z : Int) : Rat).den = 1 then Except.ok (some ((z : Int) : Rat).num)
    else Except.error ()) = Except.ok (some z)
  rw [if_pos (Rat.den_intCast z), Rat.num_intCast]

/-! ## Float printing/parsing roundtrip for the rate column -/

theorem data_mk (l : List Char) : (String.mk l).data = l := rfl

theorem intToStr_data_ne_nil (z : Int) : (intToStr z).data ≠ [] := by
  intro hh
  exact intToStr_ne_empty z (String.ext hh)

theorem ratToStr_no_space (q : Rat) (h : (q * 10).den = 1) :
    ∀ c ∈ (ratToStr q).data, isPySpace c = false := by
  intro c hc
  unfold ratToStr at hc
  by_cases hq1 : q.den = 1
  · rw [if_pos hq1, String.data_append] at hc
    rcases List.mem_append.mp hc with h1 | h2
    · exact intToStr_no_space _ c h1
    · have h3 : c = '.' ∨ c = '0' := by simpa using h2
      rcases h3 with rfl | rfl <;> decide
  · rw [if_neg hq1, if_pos h] at hc
    by_cases hqn : q < 0
    · rw [if_pos hqn] at hc
      simp only [String.data_append, data_mk, List.mem_append] at hc
      rcases hc with ((h1 | h1) | h1) | h1
      · have : c = '-' := by simpa using h1
        subst this; decide
      · exact isDigit_not_space c (natToDigits_all_digit _ c h1)
      · have : c = '.' := by simpa using h1
        subst this; decide
      · exact isDigit_not_space c (natToDigits_all_digit _ c h1)
    · rw [if_neg hqn] at hc
      simp only [String.data_append, data_mk, List.mem_append] at hc
      rcases hc with ((h1 | h1) | h1) | h1
      · exact absurd h1 (by simp)
      · exact isDigit_not_space c (natToDigits_all_digit _ c h1)
      · have : c = '.' := by simpa using h1
        subst this; decide
      · exact isDigit_not_space c (natToDigits_all_digit _ c h1)

theorem pstrip_ratToStr (q : Rat) (h : (q * 10).den = 1) :
    pstrip (ratToStr q) = ratToStr q :=
  pstrip_eq_self _ (ratToStr_no_space q h)

theorem ratToStr_ne_empty (q : Rat) (h : (q * 10).den = 1) : ratToStr q ≠ "" := by
  unfold ratToStr
  by_cases hq1 : q.den = 1
  · rw [if_pos hq1]
    intro heq
    rw [String.ext_iff, String.data_append] at heq
    exact absurd (List.append_eq_nil.mp heq).2 (by simp)
  · rw [if_neg hq1, if_pos h]
    intro heq
    rw [String.ext_iff] at heq
    by_cases hqn : q < 0
    · rw [if_pos hqn] at heq
      simp only [String.data_append, data_mk] at heq
      have := congrArg List.length heq
      simp at this
    · rw [if_neg hqn] at heq
      simp only [String.data_append, data_mk] at heq
      have := congrArg List.length heq
      simp at this

theorem ratToStr_ne_dash (q : Rat) (h : (q * 10).den = 1) : ratToStr q ≠ "-" := by
  unfold ratToStr
  by_cases hq1 : q.den = 1
  · rw [if_pos hq1]
    intro heq
    rw [String.ext_iff, String.data_append] at heq
    have := congrArg List.length heq
    simp at this
  · rw [if_neg hq1, if_pos h]
    intro heq
    rw [String.ext_iff] at heq
    have h3 : (natToDigits ((q * 10).num.natAbs / 10)).length ≠ 0 := by
      intro h0
      exact natToDigits_ne_nil _ (List.length_eq_zero.mp h0)
    by_cases hqn : q < 0
    · rw [if_pos hqn] at heq
      simp only [String.data_append, data_mk] at heq
      have := congrArg List.length heq
      simp at this
    · rw [if_neg hqn] at heq
      simp only [String.data_append, data_mk] at heq
      have := congrArg List.length heq
      simp at this
      omega

theorem parseDecExp_append (ipl fpl : List Char) (hip : ipl ≠ [])
    (h1 : ∀ c ∈ ipl, c.isDigit = true) (h2 : ∀ c ∈ fpl, c.isDigit = true) :
    parseDecExp (ipl ++ '.' :: fpl) =
      some ((digitsToNat ipl : Rat) + (digitsToNat fpl : Rat) / (10 ^ fpl.length)) := by
  unfold parseDecExp
  rw [takeWhile_append_of Char.isDigit '.' fpl (by decide) ipl h1,
    dropWhile_append_of Char.isDigit '.' fpl (by decide) ipl h1,
    if_neg (by simp : ¬('.' :: fpl = [])), if_pos (by rfl), List.tail_cons,
    takeWhile_eq_self_of Char.isDigit fpl h2,
    dropWhile_eq_nil_of Char.isDigit fpl h2,
    if_neg (by simp [hip])]
  rfl

theorem parsePyNum_decimal (ipl fpl : List Char) (hip : ipl ≠ [])
    (h1 : ∀ c ∈ ipl, c.isDigit = true) (h2 : ∀ c ∈ fpl, c.isDigit = true) :
    parsePyNum (String.mk (ipl ++ '.' :: fpl)) =
      some (PyNum.fin
        ((digitsToNat ipl : Rat) + (digitsToNat fpl : Rat) / (10 ^ fpl.length))) := by
  cases ipl with
  | nil => exact absurd rfl hip
  | cons c cs =>
    have hc : c.isDigit = true := h1 c (by simp)
    rw [show ((c :: cs) ++ '.' :: fpl) = c :: (cs ++ '.' :: fpl) from rfl,
      parsePyNum_mk_digitHead c hc (cs ++ '.' :: fpl),
      parseUnsigned_digitHead c hc (cs ++ '.' :: fpl) false,
      show (c :: (cs ++ '.' :: fpl)) = ((c :: cs) ++ '.' :: fpl) from rfl,
      parseDecExp_append (c :: cs) fpl hip h1 h2]
    rfl

theorem parsePyNum_neg_decimal (ipl fpl : List Char) (hip : ipl ≠ [])
    (h1 : ∀ c ∈ ipl, c.isDigit = true) (h2 : ∀ c ∈ fpl, c.isDigit = true) :
    parsePyNum ("-" ++ String.mk (ipl ++ '.' :: fpl)) =
      some (PyNum.fin
        (-((digitsToNat ipl : Rat) + (digitsToNat fpl : Rat) / (10 ^ fpl.length)))) := by
  cases ipl with
  | nil => exact absurd rfl hip
  | cons c cs =>
    have hc : c.isDigit = true := h1 c (by simp)
    show (if ('-' : Char) = '+' then parseUnsigned ((c :: cs) ++ '.' :: fpl) false
      else if ('-' : Char) = '-' then parseUnsigned ((c :: cs) ++ '.' :: fpl) true
      else parseUnsigned ('-' :: ((c :: cs) ++ '.' :: fpl)) false) = _
    rw [if_neg (by decide), if_pos rfl,
      show ((c :: cs) ++ '.' :: fpl) = c :: (cs ++ '.' :: fpl) from rfl,
      parseUnsigned_digitHead c hc (cs ++ '.' :: fpl) true,
      show (c :: (cs ++ '.' :: fpl)) = ((c :: cs) ++ '.' :: fpl) from rfl,
      parseDecExp_append (c :: cs) fpl hip h1 h2]
    rfl

theorem digit_zero_all : ∀ c ∈ ['0'], c.isDigit = true := by decide

theorem natCast_div_add_mod_tenth (a : Nat) :
    ((a / 10 : Nat) : Rat) + ((a % 10 : Nat) : Rat) / 10 ^ (1 : Nat) = (a : Rat) / 10 := by
  have h := Nat.div_add_mod a 10
  have h2 : ((10 * (a / 10) + a % 10 : Nat) : Rat) = (a : Rat) := by rw [h]
  push_cast at h2
  rw [pow_one]
  field_simp
  linarith

theorem parsePyNum_ratToStr (q : Rat) (h : (q * 10).den = 1) :
    parsePyNum (ratToStr q) = some (PyNum.fin q) := by
  unfold ratToStr
  by_cases hq1 : q.den = 1
  · rw [if_pos hq1]
    have hnum : ((q.num : Int) : Rat) = q := Rat.coe_int_num_of_den_eq_one hq1
    by_cases hz : q.num < 0
    · have hs : intToStr q.num ++ ".0" =
          "-" ++ String.mk (natToDigits q.num.natAbs ++ '.' :: ['0']) := by
        unfold intToStr
        rw [if_pos hz, String.ext_iff]
        simp [data_mk]
      rw [hs, parsePyNum_neg_decimal _ _ (natToDigits_ne_nil _)
        (natToDigits_all_digit _) digit_zero_all]
      simp only [Option.some.injEq, PyNum.fin.injEq]
      rw [digitsToNat_natToDigits, show digitsToNat ['0'] = 0 from by decide]
      have hab : ((q.num.natAbs : Nat) : Rat) = -((q.num : Int) : Rat) := by
        have h1 : ((q.num.natAbs : Nat) : Int) = -q.num := by omega
        calc ((q.num.natAbs : Nat) : Rat)
            = (((q.num.natAbs : Nat) : Int) : Rat) := (Int.cast_natCast _).symm
          _ = ((-q.num : Int) : Rat) := by rw [h1]
          _ = -((q.num : Int) : Rat) := by push_cast; ring
      rw [hab, hnum]
      norm_num
    · have hs : intToStr q.num ++ ".0" =
          String.mk (natToDigits q.num.toNat ++ '.' :: ['0']) := by
        unfold intToStr
        rw [if_neg hz, String.ext_iff]
        simp [data_mk]
      rw [hs, parsePyNum_decimal _ _ (natToDigits_ne_nil _)
        (natToDigits_all_digit _) digit_zero_all]
      simp only [Option.some.injEq, PyNum.fin.injEq]
      rw [digitsToNat_natToDigits, show digitsToNat ['0'] = 0 from by decide]
      have htn : ((q.num.toNat : Nat) : Rat) = ((q.num : Int) : Rat) := by
        have h1 : ((q.num.toNat : Nat) : Int) = q.num := by omega
        calc ((q.num.toNat : Nat) : Rat)
            = (((q.num.toNat : Nat) : Int) : Rat) := (Int.cast_natCast _).symm
          _ = ((q.num : Int) : Rat) := by rw [h1]
      rw [htn, hnum]
      norm_num
  · rw [if_neg hq1, if_pos h]
    have hz2 : (((q * 10).num : Int) : Rat) = q * 10 :=
      Rat.coe_int_num_of_den_eq_one h
    by_cases hqn : q < 0
    · rw [if_pos hqn]
      have hs : ("-" ++ String.mk (natToDigits ((q * 10).num.natAbs / 10)) ++
            "." ++ String.mk (natToDigits ((q * 10).num.natAbs % 10))) =
          "-" ++ String.mk (natToDigits ((q * 10).num.natAbs / 10) ++
            '.' :: natToDigits ((q * 10).num.natAbs % 10)) := by
        rw [String.ext_iff]
        simp [data_mk]
      rw [hs, parsePyNum_neg_decimal _ _ (natToDigits_ne_nil _)
        (natToDigits_all_digit _) (natToDigits_all_digit _)]
      simp only [Option.some.injEq, PyNum.fin.injEq]
      rw [digitsToNat_natToDigits, digitsToNat_natToDigits,
        natToDigits_lt_ten ((q * 10).num.natAbs % 10) (by omega),
        List.length_singleton, natCast_div_add_mod_tenth]
      have hq10 : q * 10 < 0 := mul_neg_of_neg_of_pos hqn (by norm_num)
      have hnumneg : (q * 10).num < 0 := by
        have h2 : (((q * 10).num : Int) : Rat) < 0 := by rw [hz2]; exact hq10
        exact_mod_cast h2
      have haq : (((q * 10).num.natAbs : Nat) : Rat) = -(q * 10) := by
        have h1 : (((q * 10).num.natAbs : Nat) : Int) = -(q * 10).num := by omega
        calc (((q * 10).num.natAbs : Nat) : Rat)
            = ((((q * 10).num.natAbs : Nat) : Int) : Rat) := (Int.cast_natCast _).symm
          _ = ((-(q * 10).num : Int) : Rat) := by rw [h1]
          _ = -(((q * 10).num : Int) : Rat) := by push_cast; ring
          _ = -(q * 10) := by rw [hz2]
      rw [haq]
      field_simp
    · rw [if_neg hqn]
      have hs : ("" ++ String.mk (natToDigits ((q * 10).num.natAbs / 10)) ++
            "." ++ String.mk (natToDigits ((q * 10).num.natAbs % 10))) =
          String.mk (natToDigits ((q * 10).num.natAbs / 10) ++
            '.' :: natToDigits ((q * 10).num.natAbs % 10)) := by
        rw [String.ext_iff]
        simp [data_mk]
      rw [hs, parsePyNum_decimal _ _ (natToDigits_ne_nil _)
        (natToDigits_all_digit _) (natToDigits_all_digit _)]
      simp only [Option.some.injEq, PyNum.fin.injEq]
      rw [digitsToNat_natToDigits, digitsToNat_natToDigits,
        natToDigits_lt_ten ((q * 10).num.natAbs % 10) (by omega),
        List.length_singleton, natCast_div_add_mod_tenth]
      have hq10 : 0 ≤ q * 10 := by
        have : 0 ≤ q := not_lt.mp hqn
        positivity
      have hnumpos : 0 ≤ (q * 10).num := by
        have h2 : 0 ≤ (((q * 10).num : Int) : Rat) := by rw [hz2]; exact hq10
        exact_mod_cast h2
      have haq : (((q * 10).num.natAbs : Nat) : Rat) = q * 10 := by
        have h1 : (((q * 10).num.natAbs : Nat) : Int) = (q * 10).num := by omega
        calc (((q * 10).num.natAbs : Nat) : Rat)
            = ((((q * 10).num.natAbs : Nat) : Int) : Rat) := (Int.cast_natCast _).symm
          _ = (((q * 10).num : Int) : Rat) := by rw [h1]
          _ = q * 10 := hz2
      rw [haq]
      field_simp

theorem roundHalfEven_intCast (z : Int) : roundHalfEven ((z : Int) : Rat) = z := by
  unfold roundHalfEven
  rw [Int.floor_intCast]
  norm_num

theorem roundTenth_tenth (q : Rat) (h : (q * 10).den = 1) : roundTenth q = q := by
  unfold roundTenth
  have h2 : (((q * 10).num : Int) : Rat) = q * 10 :=
    Rat.coe_int_num_of_den_eq_one h
  rw [← h2, roundHalfEven_intCast, h2]
  field_simp

theorem roundTenth_den (q : Rat) : (roundTenth q * 10).den = 1 := by
  unfold roundTenth
  rw [div_mul_cancel₀ _ (by norm_num : (10 : Rat) ≠ 0)]
  exact Rat.den_intCast _

theorem toNumRate_rat (q : Rat) (h : (q * 10).den = 1) :
    toNumRate (Cell.r q) = some (PyNum.fin q) := by
  unfold toNumRate
  rw [show pyStr (Cell.r q) = ratToStr q from rfl, pstrip_ratToStr q h,
    if_neg (not_or.mpr ⟨ratToStr_ne_empty q h, ratToStr_ne_dash q h⟩),
    parsePyNum_ratToStr q h]
  show some (PyNum.fin (roundTenth q)) = some (PyNum.fin q)
  rw [roundTenth_tenth q h]

theorem toNumRate_inf (b : Bool) : toNumRate (Cell.inf b) = some (PyNum.pinf b) := by
  cases b <;> rfl

theorem toNumRate_fin_den (c : Cell) (q : Rat)
    (h : toNumRate c = some (PyNum.fin q)) : (q * 10).den = 1 := by
  unfold toNumRate at h
  by_cases hnul : pstrip (pyStr c) = "" ∨ pstrip (pyStr c) = "-"
  · rw [if_pos hnul] at h
    exact absurd h (by simp)
  · rw [if_neg hnul] at h
    cases hpp : parsePyNum (pstrip (pyStr c)) with
    | none =>
      rw [hpp] at h
      have h2 : (none : Option PyNum) = some (PyNum.fin q) := h
      exact absurd h2 (by simp)
    | some pn =>
      rw [hpp] at h
      cases pn with
      | pinf b =>
        have h2 : some (PyNum.pinf b) = some (PyNum.fin q) := h
        exact absurd h2 (by simp)
      | fin q2 =>
        have h2 : some (PyNum.fin (roundTenth q2)) = some (PyNum.fin q) := h
        simp only [Option.some.injEq, PyNum.fin.injEq] at h2
        rw [← h2]
        exact roundTenth_den q2

/-! ## Normalizer lemmas -/

theorem conv_numeric (r : Rec) (j : Fin 28) (hj : isNumericCol j = true) :
    convOk r j = (okD (toNumInt (r j))).map Cell.i := by
  have h9 : ¬ j.val = 9 := by
    intro h
    have h0 : isNumericCol j = false := by
      unfold isNumericCol
      rw [h]
      decide
    rw [h0] at hj
    exact absurd hj (by simp)
  unfold convOk
  rw [if_neg h9, if_pos hj]

theorem conv_rate (r : Rec) :
    convOk r 9 = (toNumRate (r 9)).map cellOfPyNum := rfl

theorem conv_key_shape (r : Rec) :
    key0 (convOk r) =
      (some (r 0), some (r 1), some (r 2), (okD (toNumInt (r 3))).map Cell.i) := rfl

theorem mapKey4_inj_conv (r1 r2 : Rec)
    (h : mapKey4 (key0 (convOk r1)) = mapKey4 (key0 (convOk r2))) :
    key0 (convOk r1) = key0 (convOk r2) := by
  rw [conv_key_shape, conv_key_shape] at h ⊢
  unfold mapKey4 at h
  simp only [Option.getD_some, Prod.mk.injEq] at h
  obtain ⟨h1, h2, h3, h4⟩ := h
  simp only [Prod.mk.injEq, Option.some.injEq]
  refine ⟨h1, h2, h3, ?_⟩
  cases o1 : okD (toNumInt (r1 3)) with
  | none =>
    cases o2 : okD (toNumInt (r2 3)) with
    | none => rfl
    | some z2 =>
      rw [o1, o2] at h4
      exact absurd h4 (by simp)
  | some z1 =>
    cases o2 : okD (toNumInt (r2 3)) with
    | none =>
      rw [o1, o2] at h4
      exact absurd h4 (by simp)
    | some z2 =>
      rw [o1, o2] at h4
      simp only [Option.map_some', Option.getD_some, Cell.i.injEq] at h4
      rw [h4]

theorem convAll_ok (df : List Rec) (L : List (Fin 28 → Option Cell))
    (h : convAll df = .ok L) :
    L = df.map convOk ∧ ∀ r ∈ df, recBad r = false := by
  induction df generalizing L with
  | nil =>
    have h' : Except.ok ([] : List (Fin 28 → Option Cell)) = Except.ok L := h
    simp only [Except.ok.injEq] at h'
    exact ⟨h'.symm, by simp⟩
  | cons r rest ih =>
    unfold convAll at h
    cases hc : convRecord r with
    | error e =>
      rw [hc] at h
      have h' : (Except.error e : Except Unit (List (Fin 28 → Option Cell))) =
          Except.ok L := h
      exact absurd h' (by simp)
    | ok g =>
      rw [hc] at h
      cases he : convAll rest with
      | error e =>
        rw [he] at h
        have h' : (Except.error e : Except Unit (List (Fin 28 → Option Cell))) =
            Except.ok L := h
        exact absurd h' (by simp)
      | ok L0 =>
        rw [he] at h
        have h' : Except.ok (g :: L0) = Except.ok L := h
        simp only [Except.ok.injEq] at h'
        obtain ⟨hL0, hrest⟩ := ih L0 he
        have hg : g = convOk r ∧ recBad r = false := by
          unfold convRecord at hc
          by_cases hb : recBad r = true
          · rw [if_pos hb] at hc
            exact absurd hc (by simp)
          · rw [if_neg hb] at hc
            simp only [Except.ok.injEq] at hc
            exact ⟨hc.symm, Bool.eq_false_iff.mpr hb⟩
        refine ⟨?_, ?_⟩
        · rw [← h', hL0, hg.1, List.map_cons]
        · intro r2 hr2
          rcases List.mem_cons.mp hr2 with rfl | hr3
          · exact hg.2
          · exact hrest r2 hr3

theorem convAll_of_good (df : List Rec) (h : ∀ r ∈ df, recBad r = false) :
    convAll df = .ok (df.map convOk) := by
  induction df with
  | nil => rfl
  | cons r rest ih =>
    unfold convAll
    have hb : recBad r = false := h r (by simp)
    have hc : convRecord r = .ok (convOk r) := by
      unfold convRecord
      rw [if_neg (by simp [hb])]
    rw [hc, ih (fun r2 hr2 => h r2 (List.mem_cons_of_mem r hr2))]
    rfl

theorem process_ok_shape (df : List Rec) (out : List Rec)
    (hp : process_kpi_data df = .ok out) (hdf : df ≠ []) :
    out = (dedupeBy key0 (df.map convOk) []).map renderRecord ∧
      ∀ r ∈ df, recBad r = false := by
  unfold process_kpi_data at hp
  rw [if_neg hdf] at hp
  cases hc : convAll df with
  | error e =>
    rw [hc] at hp
    have hp2 : (Except.error e : Except Unit (List Rec)) = Except.ok out := hp
    exact absurd hp2 (by simp)
  | ok L =>
    rw [hc] at hp
    have hp2 : Except.ok ((dedupeBy key0 L []).map renderRecord) =
        Except.ok out := hp
    simp only [Except.ok.injEq] at hp2
    obtain ⟨hL, hgood⟩ := convAll_ok df L hc
    subst hL
    exact ⟨hp2.symm, hgood⟩

theorem process_mem (df : List Rec) (out : List Rec)
    (hp : process_kpi_data df = .ok out) (h2 : Rec) (hm : h2 ∈ out) :
    ∃ r, r ∈ df ∧ recBad r = false ∧ h2 = renderRecord (convOk r) := by
  by_cases hdf : df = []
  · subst hdf
    rw [show process_kpi_data ([] : List Rec) = Except.ok [] from rfl] at hp
    simp only [Except.ok.injEq] at hp
    rw [← hp] at hm
    exact absurd hm (by simp)
  · obtain ⟨hout, hgood⟩ := process_ok_shape df out hp hdf
    rw [hout] at hm
    obtain ⟨g, hg, rfl⟩ := List.mem_map.mp hm
    have hgL := (dedupeBy_sublist key0 (df.map convOk) []).subset hg
    obtain ⟨r, hr, rfl⟩ := List.mem_map.mp hgL
    exact ⟨r, hr, hgood r hr, rfl⟩

/-! ## C3: deduplication invariants of the Normalizer -/

/-- C3: on a successful run of the Normalizer, the output never has two
records sharing the (account id, room id, start datetime, duration) tuple,
its record count is at most the input count, and for every key the first
(and only) output record with that key is exactly the first converted input
record with that key in scan order. -/
theorem c3_deduplication (df : List Rec) (out : List Rec)
    (hp : process_kpi_data df = Except.ok out) :
    out.length ≤ df.length ∧
    (out.map dedupKey).Nodup ∧
    ∀ k : Cell × Cell × Cell × Cell,
      out.find? (fun h2 => dedupKey h2 == k) =
        ((df.map convOk).map renderRecord).find?
          (fun h2 => dedupKey h2 == k) := by
  by_cases hdf : df = []
  · subst hdf
    rw [show process_kpi_data ([] : List Rec) = Except.ok [] from rfl] at hp
    simp only [Except.ok.injEq] at hp
    subst hp
    exact ⟨by simp, by simp, fun k => rfl⟩
  · obtain ⟨hout, -⟩ := process_ok_shape df out hp hdf
    subst hout
    refine ⟨?_, ?_, ?_⟩
    · calc ((dedupeBy key0 (df.map convOk) []).map renderRecord).length
          = (dedupeBy key0 (df.map convOk) []).length :=
            List.length_map _ _
        _ ≤ (df.map convOk).length :=
            (dedupeBy_sublist key0 (df.map convOk) []).length_le
        _ = df.length := List.length_map _ _
    · have hkeys : ((dedupeBy key0 (df.map convOk) []).map key0).Nodup :=
        (dedupeBy_keys_nodup key0 (df.map convOk) []).2
      have hmap : ((dedupeBy key0 (df.map convOk) []).map renderRecord).map dedupKey
          = ((dedupeBy key0 (df.map convOk) []).map key0).map mapKey4 := by
        rw [List.map_map, List.map_map]
        exact List.map_congr_left (fun g _ => rfl)
      rw [hmap]
      refine List.Nodup.map_on ?_ hkeys
      intro k1 hk1 k2 hk2 heq
      obtain ⟨g1, hg1, rfl⟩ := List.mem_map.mp hk1
      obtain ⟨g2, hg2, rfl⟩ := List.mem_map.mp hk2
      have hg1L := (dedupeBy_sublist key0 (df.map convOk) []).subset hg1
      have hg2L := (dedupeBy_sublist key0 (df.map convOk) []).subset hg2
      obtain ⟨r1, _, rfl⟩ := List.mem_map.mp hg1L
      obtain ⟨r2, _, rfl⟩ := List.mem_map.mp hg2L
      exact mapKey4_inj_conv r1 r2 heq
    · intro k
      rw [List.find?_map, List.find?_map]
      exact congrArg (Option.map renderRecord)
        (dedupeBy_find? key0 (fun kk => mapKey4 kk == k)
          (df.map convOk) [] (by simp))

/-- C3 witness: the theorem applied to the two-record table `[recA, recB]`
(whose records share the dedupe key) and its one-record output `out3`,
with the key invariant read off at the shared key `k3`. -/
theorem c3_deduplication_witness :
    out3.length ≤ [recA, recB].length ∧
    (out3.map dedupKey).Nodup ∧
    out3.find? (fun h2 => dedupKey h2 == k3) =
      (([recA, recB].map convOk).map renderRecord).find?
        (fun h2 => dedupKey h2 == k3) :=
  ⟨(c3_deduplication [recA, recB] out3 (by rfl)).1,
   (c3_deduplication [recA, recB] out3 (by rfl)).2.1,
   (c3_deduplication [recA, recB] out3 (by rfl)).2.2 k3⟩

/-! ## C8: strict numeric conversion and null rendering -/

theorem toNumInt_12_0 : toNumInt (Cell.s "12.0") = Except.ok (some 12) := by
  have hp : parsePyNum "12.0" = some (PyNum.fin
      (((digitsToNat ['1', '2'] : Nat) : Rat) +
        ((digitsToNat ['0'] : Nat) : Rat) / 10 ^ (['0'] : List Char).length)) := by
    have h := parsePyNum_decimal ['1', '2'] ['0'] (by decide) (by decide) (by decide)
    rw [show String.mk (['1', '2'] ++ '.' :: ['0']) = "12.0" from rfl] at h
    exact h
  have hq : (((digitsToNat ['1', '2'] : Nat) : Rat) +
      ((digitsToNat ['0'] : Nat) : Rat) / 10 ^ (['0'] : List Char).length) =
      ((12 : Int) : Rat) := by
    rw [show digitsToNat ['1', '2'] = 12 from by decide,
      show digitsToNat ['0'] = 0 from by decide]
    norm_num
  unfold toNumInt
  rw [show pstrip (pyStr (Cell.s "12.0")) = "12.0" from rfl,
    if_neg (by decide), hp, hq]
  show (if ((12 : Int) : Rat).den = 1 then Except.ok (some ((12 : Int) : Rat).num)
    else Except.error ()) = Except.ok (some 12)
  rw [if_pos (Rat.den_intCast 12), Rat.num_intCast]

theorem toNumInt_1e3 : toNumInt (Cell.s "1e3") = Except.ok (some 1000) := by
  have hp : parsePyNum "1e3" = some (PyNum.fin
      (((digitsToNat ['1'] : Nat) : Rat) *
        (10 : Rat) ^ ((digitsToNat ['3'] : Nat) : Int))) := by rfl
  have hq : (((digitsToNat ['1'] : Nat) : Rat) *
      (10 : Rat) ^ ((digitsToNat ['3'] : Nat) : Int)) = ((1000 : Int) : Rat) := by
    rw [show digitsToNat ['1'] = 1 from by decide,
      show digitsToNat ['3'] = 3 from by decide, zpow_natCast]
    norm_num
  unfold toNumInt
  rw [show pstrip (pyStr (Cell.s "1e3")) = "1e3" from rfl,
    if_neg (by decide), hp, hq]
  show (if ((1000 : Int) : Rat).den = 1 then
      Except.ok (some ((1000 : Int) : Rat).num)
    else Except.error ()) = Except.ok (some 1000)
  rw [if_pos (Rat.den_intCast 1000), Rat.num_intCast]

theorem toNumInt_12_5 : toNumInt (Cell.s "12.5") = Except.error () := by
  have hp : parsePyNum "12.5" = some (PyNum.fin
      (((digitsToNat ['1', '2'] : Nat) : Rat) +
        ((digitsToNat ['5'] : Nat) : Rat) / 10 ^ (['5'] : List Char).length)) := by
    have h := parsePyNum_decimal ['1', '2'] ['5'] (by decide) (by decide) (by decide)
    rw [show String.mk (['1', '2'] ++ '.' :: ['5']) = "12.5" from rfl] at h
    exact h
  have hq : (((digitsToNat ['1', '2'] : Nat) : Rat) +
      ((digitsToNat ['5'] : Nat) : Rat) / 10 ^ (['5'] : List Char).length) =
      (25 : Rat) / 2 := by
    rw [show digitsToNat ['1', '2'] = 12 from by decide,
      show digitsToNat ['5'] = 5 from by decide]
    norm_num
  have hden : ¬ ((25 : Rat) / 2).den = 1 := by
    intro h1
    have h2 : ((((25 : Rat) / 2).num : Int) : Rat) = (25 : Rat) / 2 :=
      Rat.coe_int_num_of_den_eq_one h1
    have h3 : (2 : Rat) * ((((25 : Rat) / 2).num : Int) : Rat) = 25 := by
      rw [h2]
      norm_num
    have h4 : ((2 * ((25 : Rat) / 2).num : Int) : Rat) = ((25 : Int) : Rat) := by
      push_cast
      push_cast at h3
      linarith
    have h5 : (2 * ((25 : Rat) / 2).num : Int) = 25 := by exact_mod_cast h4
    omega
  unfold toNumInt
  rw [show pstrip (pyStr (Cell.s "12.5")) = "12.5" from rfl,
    if_neg (by decide), hp, hq]
  show (if ((25 : Rat) / 2).den = 1 then Except.ok (some ((25 : Rat) / 2).num)
    else Except.error ()) = Except.error ()
  rw [if_neg hden]

/-- C8 counterexample: a raw record whose designated integer column holds
the numeric string "12.5" makes `process_kpi_data` raise a `TypeError`
(`astype('Int64')` cannot losslessly cast the parsed 12.5), instead of
coercing the cell to null and returning a table. -/
theorem c8_counterexample :
    process_kpi_data [c8badrec] = Except.error () := by
  have hbad : recBad c8badrec = true := by
    unfold recBad
    rw [List.any_eq_true]
    refine ⟨7, List.mem_finRange 7, ?_⟩
    rw [Bool.and_eq_true]
    refine ⟨by decide, ?_⟩
    unfold cellBad
    rw [show c8badrec 7 = Cell.s "12.5" from rfl, toNumInt_12_5]
  have hc : convRecord c8badrec = .error () := by
    unfold convRecord
    rw [if_pos hbad]
  have hall : convAll [c8badrec] = .error () := by
    unfold convAll
    rw [hc]
  unfold process_kpi_data
  rw [if_neg (by simp), hall]

/-- C8 (amended): on a successful run every finalized record comes from a
raw record; on each designated integer column an empty, hyphen, or
unparseable cell renders as the empty string, a cell parsing to an integral
number renders as that integer cell, and every cell is an integer cell or
the empty string; the rate column is a float cell rounded to an exact
multiple of one tenth, an infinity, or the empty string.  The integer
conversion is strict rather than coercing: on a successful run no integer
column holds a cell on which `astype('Int64')` raises, and concretely
"12.0", "+5" and "1e3" convert to the integers 12, 5 and 1000 while
"12.5" and "inf" raise a `TypeError` that aborts the whole run. -/
theorem c8_numeric_mode (df : List Rec) (out : List Rec)
    (hp : process_kpi_data df = Except.ok out) :
    (∀ h2 ∈ out, ∃ r, r ∈ df ∧ h2 = renderRecord (convOk r) ∧
      (∀ j : Fin 28, isNumericCol j = true →
        ((pstrip (pyStr (r j)) = "" ∨ pstrip (pyStr (r j)) = "-") →
          h2 j = Cell.s "") ∧
        (toNumInt (r j) = Except.ok none → h2 j = Cell.s "") ∧
        (∀ z : Int, toNumInt (r j) = Except.ok (some z) → h2 j = Cell.i z) ∧
        ((∃ z : Int, h2 j = Cell.i z) ∨ h2 j = Cell.s "")) ∧
      ((pstrip (pyStr (r 9)) = "" ∨ pstrip (pyStr (r 9)) = "-") →
        h2 9 = Cell.s "") ∧
      ((∃ q : Rat, h2 9 = Cell.r q ∧ (q * 10).den = 1) ∨
        (∃ b : Bool, h2 9 = Cell.inf b) ∨ h2 9 = Cell.s "")) ∧
    (∀ r ∈ df, ∀ j : Fin 28, isNumericCol j = true →
      toNumInt (r j) ≠ Except.error ()) ∧
    toNumInt (Cell.s "12.0") = Except.ok (some 12) ∧
    toNumInt (Cell.s "+5") = Except.ok (some 5) ∧
    toNumInt (Cell.s "1e3") = Except.ok (some 1000) ∧
    toNumInt (Cell.s "12.5") = Except.error () ∧
    toNumInt (Cell.s "inf") = Except.error () := by
  refine ⟨?_, ?_, toNumInt_12_0, by rfl, toNumInt_1e3, toNumInt_12_5, by rfl⟩
  · intro h2 hm
    obtain ⟨r, hr, -, rfl⟩ := process_mem df out hp h2 hm
    refine ⟨r, hr, rfl, ?_, ?_, ?_⟩
    · intro j hj
      refine ⟨?_, ?_, ?_, ?_⟩
      · intro hnul
        show (convOk r j).getD (Cell.s "") = Cell.s ""
        rw [conv_numeric r j hj]
        have h0 : toNumInt (r j) = Except.ok none := by
          unfold toNumInt
          rw [if_pos hnul]
        rw [h0]
        rfl
      · intro h0
        show (convOk r j).getD (Cell.s "") = Cell.s ""
        rw [conv_numeric r j hj, h0]
        rfl
      · intro z h0
        show (convOk r j).getD (Cell.s "") = Cell.i z
        rw [conv_numeric r j hj, h0]
        rfl
      · show (∃ z : Int, (convOk r j).getD (Cell.s "") = Cell.i z) ∨
            (convOk r j).getD (Cell.s "") = Cell.s ""
        rw [conv_numeric r j hj]
        cases okD (toNumInt (r j)) with
        | none => right; rfl
        | some z => left; exact ⟨z, rfl⟩
    · intro hnul
      show (convOk r 9).getD (Cell.s "") = Cell.s ""
      rw [conv_rate]
      have h0 : toNumRate (r 9) = none := by
        unfold toNumRate
        rw [if_pos hnul]
      rw [h0]
      rfl
    · show (∃ q : Rat, (convOk r 9).getD (Cell.s "") = Cell.r q ∧
            (q * 10).den = 1) ∨
          (∃ b : Bool, (convOk r 9).getD (Cell.s "") = Cell.inf b) ∨
          (convOk r 9).getD (Cell.s "") = Cell.s ""
      rw [conv_rate]
      cases ho : toNumRate (r 9) with
      | none => right; right; rfl
      | some p =>
        cases p with
        | pinf b =>
          right; left
          exact ⟨b, rfl⟩
        | fin q =>
          left
          exact ⟨q, rfl, toNumRate_fin_den (r 9) q ho⟩
  · intro r hr j hj hcontra
    have hdf : df ≠ [] := by
      intro h0
      rw [h0] at hr
      exact absurd hr (by simp)
    have hgood := (process_ok_shape df out hp hdf).2 r hr
    have hbad : recBad r = true := by
      unfold recBad
      rw [List.any_eq_true]
      refine ⟨j, List.mem_finRange j, ?_⟩
      rw [Bool.and_eq_true]
      refine ⟨hj, ?_⟩
      unfold cellBad
      rw [hcontra]
    rw [hgood] at hbad
    exact absurd hbad (by simp)

/-- C8 witness: the theorem applied to the one-record table holding `rec8`
(rate "12.34", one empty metric, one hyphen metric, numerals elsewhere) and
its output `[h8]`. -/
theorem c8_numeric_mode_witness :
    (∀ h2 ∈ [h8], ∃ r, r ∈ [rec8] ∧ h2 = renderRecord (convOk r) ∧
      (∀ j : Fin 28, isNumericCol j = true →
        ((pstrip (pyStr (r j)) = "" ∨ pstrip (pyStr (r j)) = "-") →
          h2 j = Cell.s "") ∧
        (toNumInt (r j) = Except.ok none → h2 j = Cell.s "") ∧
        (∀ z : Int, toNumInt (r j) = Except.ok (some z) → h2 j = Cell.i z) ∧
        ((∃ z : Int, h2 j = Cell.i z) ∨ h2 j = Cell.s "")) ∧
      ((pstrip (pyStr (r 9)) = "" ∨ pstrip (pyStr (r 9)) = "-") →
        h2 9 = Cell.s "") ∧
      ((∃ q : Rat, h2 9 = Cell.r q ∧ (q * 10).den = 1) ∨
        (∃ b : Bool, h2 9 = Cell.inf b) ∨ h2 9 = Cell.s "")) ∧
    (∀ r ∈ [rec8], ∀ j : Fin 28, isNumericCol j = true →
      toNumInt (r j) ≠ Except.error ()) ∧
    toNumInt (Cell.s "12.0") = Except.ok (some 12) ∧
    toNumInt (Cell.s "+5") = Except.ok (some 5) ∧
    toNumInt (Cell.s "1e3") = Except.ok (some 1000) ∧
    toNumInt (Cell.s "12.5") = Except.error () ∧
    toNumInt (Cell.s "inf") = Except.error () :=
  c8_numeric_mode [rec8] [h8] (by rfl)

/-! ## C9: idempotence of the Normalizer -/

theorem convOk_stable (r : Rec) :
    convOk (renderRecord (convOk r)) = convOk r := by
  funext j
  by_cases h9 : j.val = 9
  · have e : ∀ r2 : Rec, convOk r2 j = (toNumRate (r2 j)).map cellOfPyNum := by
      intro r2
      unfold convOk
      rw [if_pos h9]
    rw [e, e]
    have e2 : renderRecord (convOk r) j =
        ((toNumRate (r j)).map cellOfPyNum).getD (Cell.s "") := by
      show (convOk r j).getD (Cell.s "") = _
      rw [e]
    rw [e2]
    cases ho : toNumRate (r j) with
    | none =>
      show (toNumRate (Cell.s "")).map cellOfPyNum = none
      rfl
    | some p =>
      cases p with
      | pinf b =>
        show (toNumRate (Cell.inf b)).map cellOfPyNum =
          some (cellOfPyNum (PyNum.pinf b))
        rw [toNumRate_inf b]
        rfl
      | fin q =>
        show (toNumRate (Cell.r q)).map cellOfPyNum =
          some (cellOfPyNum (PyNum.fin q))
        rw [toNumRate_rat q (toNumRate_fin_den (r j) q ho)]
        rfl
  · by_cases hn : isNumericCol j = true
    · have e : ∀ r2 : Rec, convOk r2 j = (okD (toNumInt (r2 j))).map Cell.i :=
        fun r2 => conv_numeric r2 j hn
      rw [e, e]
      have e2 : renderRecord (convOk r) j =
          ((okD (toNumInt (r j))).map Cell.i).getD (Cell.s "") := by
        show (convOk r j).getD (Cell.s "") = _
        rw [e]
      rw [e2]
      cases ho : okD (toNumInt (r j)) with
      | none =>
        show (okD (toNumInt (Cell.s ""))).map Cell.i = none
        rfl
      | some z =>
        show (okD (toNumInt (Cell.i z))).map Cell.i = some (Cell.i z)
        rw [toNumInt_int]
        rfl
    · have e : ∀ r2 : Rec, convOk r2 j = some (r2 j) := by
        intro r2
        unfold convOk
        rw [if_neg h9, if_neg hn]
      rw [e, e]
      congr 1
      show (convOk r j).getD (Cell.s "") = r j
      rw [e]
      rfl

theorem recBad_render (r : Rec) :
    recBad (renderRecord (convOk r)) = false := by
  have key : ∀ j : Fin 28,
      (isNumericCol j && cellBad (renderRecord (convOk r) j)) = false := by
    intro j
    by_cases hn : isNumericCol j = true
    · have e2 : renderRecord (convOk r) j =
          ((okD (toNumInt (r j))).map Cell.i).getD (Cell.s "") := by
        show (convOk r j).getD (Cell.s "") = _
        rw [conv_numeric r j hn]
      rw [e2]
      cases o : okD (toNumInt (r j)) with
      | none =>
        show (isNumericCol j && cellBad (Cell.s "")) = false
        rw [show cellBad (Cell.s "") = false from rfl, Bool.and_false]
      | some z =>
        show (isNumericCol j && cellBad (Cell.i z)) = false
        have hz : cellBad (Cell.i z) = false := by
          unfold cellBad
          rw [toNumInt_int]
        rw [hz, Bool.and_false]
    · have hn2 : isNumericCol j = false := by
        cases h : isNumericCol j
        · rfl
        · exact absurd h hn
      rw [hn2, Bool.false_and]
  unfold recBad
  cases hA : (List.finRange 28).any
      (fun j => isNumericCol j && cellBad (renderRecord (convOk r) j)) with
  | false => rfl
  | true =>
    rw [List.any_eq_true] at hA
    obtain ⟨j, hjm, hj⟩ := hA
    rw [key j] at hj
    exact absurd hj (by simp)

/-- C9: the Normalizer is idempotent — running `process_kpi_data` on the
output of a successful run returns that output unchanged (already
deduplicated, already column-ordered, already null-rendered, and with no
cell on which the strict integer conversion could raise). -/
theorem c9_idempotent (df : List Rec) (out : List Rec)
    (hp : process_kpi_data df = Except.ok out) :
    process_kpi_data out = Except.ok out := by
  by_cases hdf : df = []
  · subst hdf
    rw [show process_kpi_data ([] : List Rec) = Except.ok [] from rfl] at hp
    simp only [Except.ok.injEq] at hp
    subst hp
    rfl
  · obtain ⟨hout, hgood⟩ := process_ok_shape df out hp hdf
    by_cases hout0 : out = []
    · subst hout0
      rfl
    · have hgoodout : ∀ h2 ∈ out, recBad h2 = false := by
        intro h2 hm
        obtain ⟨r, hr, hb, rfl⟩ := process_mem df out hp h2 hm
        exact recBad_render r
      have hconv : convAll out = .ok (out.map convOk) :=
        convAll_of_good out hgoodout
      have hmapconv : out.map convOk = dedupeBy key0 (df.map convOk) [] := by
        rw [hout, List.map_map]
        have hst : ∀ g ∈ dedupeBy key0 (df.map convOk) [],
            (convOk ∘ renderRecord) g = id g := by
          intro g hg
          have hgL := (dedupeBy_sublist key0 (df.map convOk) []).subset hg
          obtain ⟨r, hrr, rfl⟩ := List.mem_map.mp hgL
          exact convOk_stable r
        rw [List.map_congr_left hst, List.map_id]
      have hnodup : ((dedupeBy key0 (df.map convOk) []).map key0).Nodup :=
        (dedupeBy_keys_nodup key0 (df.map convOk) []).2
      unfold process_kpi_data
      rw [if_neg hout0, hconv]
      show Except.ok ((dedupeBy key0 (out.map convOk) []).map renderRecord) =
        Except.ok out
      rw [hmapconv,
        dedupeBy_eq_self key0 (dedupeBy key0 (df.map convOk) []) []
          hnodup (by simp), ← hout]

/-- C9 witness: the theorem applied to the one-record table `[recA]` and
its normalized output `out9`. -/
theorem c9_idempotent_witness : process_kpi_data out9 = Except.ok out9 :=
  c9_idempotent [recA] out9 (by rfl)

/-! ## C10: the duration column is never null -/

theorem extractRows_shape (rs : List (List String)) :
    ∀ l : List Rec, extractRows rs = .ok l →
      ∀ r ∈ l, ∃ cells d2, r = mkRec cells d2 := by
  induction rs with
  | nil =>
    intro l h r hr
    simp only [extractRows, Except.ok.injEq] at h
    subst h
    exact absurd hr (by simp)
  | cons row rest ih =>
    intro l h r hr
    unfold extractRows at h
    cases hrs : rowStep row with
    | error e =>
      rw [hrs] at h
      exact absurd h (by simp)
    | ok o =>
      rw [hrs] at h
      cases o with
      | none => exact ih l h r hr
      | some r0 =>
        cases he : extractRows rest with
        | error e =>
          rw [he] at h
          exact absurd h (by simp)
        | ok l0 =>
          rw [he] at h
          simp only [Except.ok.injEq] at h
          subst h
          rcases List.mem_cons.mp hr with rfl | hr2
          · obtain ⟨-, d2, hmk⟩ := rowStep_ok_some row r hrs
            exact ⟨row, d2, hmk⟩
          · exact ih l0 he r hr2

theorem walkFrom_shape (pages : Nat → PageResp) :
    ∀ (fuel p : Nat) (fetched : List Nat) (acc recs : List Rec),
      (∀ r ∈ acc, ∃ cells d2, r = mkRec cells d2) →
      (walkFrom pages p fuel fetched acc).2 = .ok recs →
      ∀ r ∈ recs, ∃ cells d2, r = mkRec cells d2 := by
  intro fuel
  induction fuel with
  | zero =>
    intro p fetched acc recs hacc h
    simp only [walkFrom, Except.ok.injEq] at h
    subst h
    exact hacc
  | succ fuel ih =>
    intro p fetched acc recs hacc h
    unfold walkFrom at h
    cases hp : pages p with
    | httpError =>
      simp only [hp, Except.ok.injEq] at h
      subst h
      exact hacc
    | noTable =>
      simp only [hp] at h
      exact absurd h (by simp)
    | tableNoTbody =>
      simp only [hp, Except.ok.injEq] at h
      subst h
      exact hacc
    | rows rs =>
      simp only [hp] at h
      cases he : extractRows rs with
      | error e =>
        simp only [he] at h
        exact absurd h (by simp)
      | ok newRecs =>
        simp only [he] at h
        have hnew : ∀ r ∈ acc ++ newRecs, ∃ cells d2, r = mkRec cells d2 := by
          intro r hr
          rcases List.mem_append.mp hr with h1 | h2
          · exact hacc r h1
          · exact extractRows_shape rs newRecs he r h2
        by_cases hd : rs.any (fun row => row.length == 27) = true
        · rw [if_pos hd] at h
          exact ih (p + 1) (fetched ++ [p]) (acc ++ newRecs) recs hnew h
        · rw [if_neg hd] at h
          simp only [Except.ok.injEq] at h
          subst h
          exact hnew

/-- C10: in every finalized table produced by the pipeline (a successful
scrape followed by a successful run of the Normalizer), the duration column
(field 3) of every record is an integer cell holding a nonnegative value —
never missing, never the empty string. -/
theorem c10_duration_column (pages : Nat → PageResp) (fp : List Nat)
    (recs : List Rec) (hw : scrape_kpi_data pages = (fp, Except.ok recs))
    (out : List Rec) (hp : process_kpi_data recs = Except.ok out)
    (h2 : Rec) (hm : h2 ∈ out) :
    ∃ n : Nat, h2 3 = Cell.i (n : Int) := by
  obtain ⟨r, hr, -, rfl⟩ := process_mem recs out hp h2 hm
  have hshape : ∃ cells d2, r = mkRec cells d2 := by
    refine walkFrom_shape pages 5 1 [] [] recs (by simp) ?_ r hr
    show (scrape_kpi_data pages).2 = .ok recs
    rw [hw]
  obtain ⟨cells, d2, rfl⟩ := hshape
  refine ⟨parse_live_duration (pstrip (cells.getD 2 "")), ?_⟩
  show (convOk (mkRec cells d2) 3).getD (Cell.s "") = _
  have e3 : mkRec cells d2 3 =
      Cell.i ((parse_live_duration (pstrip (cells.getD 2 "")) : Nat) : Int) := rfl
  rw [conv_numeric (mkRec cells d2) 3 (by decide), e3, toNumInt_int]
  rfl

theorem recBad_rec10 : recBad rec10 = false := by
  have key : ∀ j : Fin 28, (isNumericCol j && cellBad (rec10 j)) = false := by
    intro j
    by_cases h3 : j.val = 3
    · have e : rec10 j = Cell.i ((0 : Nat) : Int) := by
        show mkRec (List.replicate 27 "y") "" j = _
        unfold mkRec
        rw [if_neg (by omega), if_neg (by omega), if_neg (by omega), if_pos h3]
        rfl
      rw [e]
      have hz : cellBad (Cell.i ((0 : Nat) : Int)) = false := by
        unfold cellBad
        rw [toNumInt_int]
      rw [hz, Bool.and_false]
    · fin_cases j <;> first | rfl | exact absurd rfl h3
  unfold recBad
  cases hA : (List.finRange 28).any
      (fun j => isNumericCol j && cellBad (rec10 j)) with
  | false => rfl
  | true =>
    rw [List.any_eq_true] at hA
    obtain ⟨j, hjm, hj⟩ := hA
    rw [key j] at hj
    exact absurd hj (by simp)

theorem process10 : process_kpi_data [rec10] = Except.ok [h10] := by
  have hconv : convAll [rec10] = .ok ([rec10].map convOk) :=
    convAll_of_good [rec10] (by
      intro r hr
      rw [List.mem_singleton] at hr
      rw [hr]
      exact recBad_rec10)
  unfold process_kpi_data
  rw [if_neg (by simp), hconv]
  rfl

/-- C10 witness: the theorem applied to the concrete month `pages10`
(one valid row on page 1) and its finalized one-record table. -/
theorem c10_duration_column_witness : ∃ n : Nat, h10 3 = Cell.i (n : Int) :=
  c10_duration_column pages10 [1, 2] [rec10] (by rfl) [h10] process10 h10 (by
    show h10 ∈ [renderRecord (convOk rec10)]
    exact List.mem_singleton.mpr rfl)

end SRKpi
